import Mathlib

/-!
Verification development for the `ai-business-bot` repository.

Shallow embedding of the Python source under `src/`: strings are `List Char`,
SQLite tables are Lean lists inside state records, and the handful of regular
expressions the code compiles are translated into a small executable matcher.
Every definition mirrors the corresponding Python function; theorems settle
the specification claims against these definitions.
-/

namespace AIBot

/-- A Python `str` is modelled as a list of characters. -/
abbrev Str := List Char

/-- Python's notion of whitespace as used by `str.strip`, `str.split` and the
regex class `\s` (ASCII part; the inputs in this development are ASCII or
Hebrew, and Hebrew letters are not whitespace). -/
def isPySpace (c : Char) : Bool :=
  c = ' ' || c = '\t' || c = '\n' || c = '\r' || c = '\x0b' || c = '\x0c'

/-- `str.lstrip()` — drop leading whitespace. -/
def pyLStrip (l : Str) : Str := l.dropWhile isPySpace

/-- `str.rstrip()` — drop trailing whitespace. -/
def pyRStrip (l : Str) : Str := (l.reverse.dropWhile isPySpace).reverse

/-- `str.strip()` — drop whitespace on both ends. -/
def pyStrip (l : Str) : Str := pyRStrip (pyLStrip l)

/-- One step of the right fold computing `str.split()`.
State: the word currently being accumulated and the finished words. -/
def pyWordsStep (c : Char) (st : Str × List Str) : Str × List Str :=
  if isPySpace c then ([], if st.1 = [] then st.2 else st.1 :: st.2)
  else (c :: st.1, st.2)

/-- Close the fold state of `pyWordsStep` into the word list. -/
def pyWordsFinish (st : Str × List Str) : List Str :=
  if st.1 = [] then st.2 else st.1 :: st.2

/-- Python `str.split()` (split on whitespace runs, dropping empty pieces). -/
def pyWords (l : Str) : List Str :=
  pyWordsFinish (l.foldr pyWordsStep ([], []))

/-- A string without any whitespace character. -/
def noWS (l : Str) : Bool := l.all (fun c => !(isPySpace c))

/-- Shorthand to turn a Lean string literal into the `Str` model. -/
def S (s : String) : Str := s.toList

-- ── A small executable regex matcher ────────────────────────────────────────
-- The Python source compiles a handful of fixed regular expressions
-- (`src/intent.py`, `src/llm.py`, `src/config.py`).  They use only literals,
-- character classes, `\s*`-style starred classes, alternation, optional
-- groups, the anchors `^`/`$` and the word boundary `\b`, so a tiny
-- backtracking matcher over this abstract syntax suffices.  Match results
-- are listed in Python's backtracking order (alternatives left to right,
-- stars and optionals greedy), so the head of the list is the match Python
-- would select.

/-- Regular-expression abstract syntax (the fragment the source uses). -/
inductive RE where
  | eps : RE
  | cls (p : Char → Bool) : RE
  | starCls (p : Char → Bool) : RE
  | cat (a b : RE) : RE
  | alt (a b : RE) : RE
  | opt (a : RE) : RE
  | bol : RE
  | eol : RE
  | bdry : RE

/-- Word characters for `\b` (Python `\w`): ASCII alphanumerics, underscore,
and the Hebrew block (the only scripts appearing in the source patterns). -/
def isWordChar (c : Char) : Bool :=
  (97 ≤ c.val && c.val ≤ 122) || (65 ≤ c.val && c.val ≤ 90) ||
  (48 ≤ c.val && c.val ≤ 57) || c = '_' ||
  (0x0590 ≤ c.val && c.val ≤ 0x05FF)

/-- Is the current position a `\b` word boundary, given the previous
character and the remaining input? -/
def isWordBoundary (prev : Option Char) (l : Str) : Bool :=
  let before := match prev with | none => false | some c => isWordChar c
  let after := match l with | [] => false | c :: _ => isWordChar c
  before != after

/-- All ways a starred character class can consume a prefix, longest
(greediest) first.  Each result records the new previous character and the
remaining input. -/
def clsStarSplits (p : Char → Bool) : Option Char → Str → List (Option Char × Str)
  | prev, [] => [(prev, [])]
  | prev, c :: rest =>
      if p c then clsStarSplits p (some c) rest ++ [(prev, c :: rest)]
      else [(prev, c :: rest)]

/-- All prefix matches of a regex against the input, in Python's
backtracking preference order.  Each result is the state after the match:
previous character and remaining input. -/
def reMatch : RE → Option Char → Str → List (Option Char × Str)
  | .eps, prev, l => [(prev, l)]
  | .cls _, _, [] => []
  | .cls p, _, c :: l => if p c then [(some c, l)] else []
  | .starCls p, prev, l => clsStarSplits p prev l
  | .cat a b, prev, l => (reMatch a prev l).flatMap (fun pr => reMatch b pr.1 pr.2)
  | .alt a b, prev, l => reMatch a prev l ++ reMatch b prev l
  | .opt a, prev, l => reMatch a prev l ++ [(prev, l)]
  | .bol, prev, l => if prev = none then [(prev, l)] else []
  | .eol, prev, l => if l.isEmpty || l = [ '\n' ] then [(prev, l)] else []
  | .bdry, prev, l => if isWordBoundary prev l then [(prev, l)] else []

/-- Helper for `re.search`: scan every start position. -/
def reSearchAux (re : RE) : Option Char → Str → Bool
  | prev, [] => !(reMatch re prev []).isEmpty
  | prev, c :: rest =>
      !(reMatch re prev (c :: rest)).isEmpty || reSearchAux re (some c) rest

/-- Python `pattern.search(l) is not None`. -/
def reSearch (re : RE) (l : Str) : Bool := reSearchAux re none l

/-- `re.sub(pattern, "", text)`: delete every non-overlapping match, scanning
left to right, taking Python's preferred match at each position.  (The
guard against zero-width matches is only for termination: no pattern used
by the source can match the empty string.) -/
def reSubDelAux (re : RE) : Option Char → Str → Str
  | _, [] => []
  | prev, c :: l =>
      match reMatch re prev (c :: l) with
      | [] => c :: reSubDelAux re (some c) l
      | pr :: _ =>
          if h : pr.2.length < l.length + 1 then reSubDelAux re pr.1 pr.2
          else c :: reSubDelAux re (some c) l
  termination_by _ l => l.length
  decreasing_by
    all_goals first
      | (simpa using h)
      | (simp; omega)
      | omega

def reSubDel (re : RE) (l : Str) : Str := reSubDelAux re none l

-- Pattern-building helpers.

/-- A single literal character. -/
def chC (c : Char) : RE := RE.cls (fun x => x = c)

/-- A literal string, one character at a time. -/
def litL : Str → RE
  | [] => RE.eps
  | c :: cs => RE.cat (chC c) (litL cs)

def lit (s : String) : RE := litL s.toList

/-- The regex class `\s`. -/
def wsCls : RE := RE.cls isPySpace

/-- The regex `\s*`. -/
def wsStar : RE := RE.starCls isPySpace

/-- A chain of concatenations. -/
def catList : List RE → RE
  | [] => RE.eps
  | [r] => r
  | r :: rs => RE.cat r (catList rs)

/-- A chain of alternatives, tried left to right. -/
def altList : List RE → RE
  | [] => RE.cls (fun _ => false)
  | [r] => r
  | r :: rs => RE.alt r (altList rs)

/-- Words joined by `\s*`, as in `cancel\s*appointment`. -/
def wsJoin (ws : List String) : RE :=
  catList ((ws.map lit).intersperse wsStar)

/-- The regex `.` (any character except newline). -/
def dotCls : RE := RE.cls (fun c => !(c = '\n'))

/-- The regex `.*`. -/
def dotStar : RE := RE.starCls (fun c => !(c = '\n'))

/-- ASCII lowercase of one character (Python `re.IGNORECASE` is modelled by
matching the lowercase patterns against the lowercased input; the source
patterns contain only lowercase ASCII and Hebrew). -/
def asciiLower (c : Char) : Char :=
  if 65 ≤ c.val && c.val ≤ 90 then Char.ofNat (c.toNat + 32) else c

def lowerStr (l : Str) : Str := l.map asciiLower

-- ════════════════════════════════════════════════════════════════════════════
-- Intent classifier — `src/intent.py`
-- ════════════════════════════════════════════════════════════════════════════

/-- The `Intent` enum of `src/intent.py` lines 22–28.  Its members are
exactly `GREETING`, `FAREWELL`, `APPOINTMENT_BOOKING`, `APPOINTMENT_CANCEL`,
`PRICING` and `GENERAL` — there is no `BUSINESS_HOURS` member. -/
inductive Intent where
  | greeting
  | farewell
  | appointment_booking
  | appointment_cancel
  | pricing
  | general
deriving DecidableEq

/-- Python attribute lookup on the `Intent` enum class: a name resolves to
the member of that name, and any other name raises `AttributeError`
(modelled as `none`).  Faithful to the member list of `src/intent.py`. -/
def Intent.pyAttr (name : Str) : Option Intent :=
  if name = S ("GREETING") then some .greeting
  else if name = S ("FAREWELL") then some .farewell
  else if name = S ("APPOINTMENT_BOOKING") then some .appointment_booking
  else if name = S ("APPOINTMENT_CANCEL") then some .appointment_cancel
  else if name = S ("PRICING") then some .pricing
  else if name = S ("GENERAL") then some .general
  else none

/-- `[.!?\s]` — the trailing class of the greeting/farewell patterns. -/
def greetTailCls (c : Char) : Bool :=
  c = '.' || c = '!' || c = '?' || isPySpace c

/-- Greeting pattern (anchored): `^(hi|hello|…|הלו)[.!?\s]*$`. -/
def greetingRE : RE :=
  catList [RE.bol,
    altList [lit ("hi"), lit ("hello"), lit ("hey"), lit ("hiya"),
      lit ("good morning"), lit ("good evening"), lit ("good afternoon"),
      lit ("שלום"), lit ("היי"), lit ("הי"), lit ("בוקר טוב"),
      lit ("ערב טוב"), lit ("צהריים טובים"), lit ("מה נשמע"),
      lit ("מה קורה"), lit ("אהלן"), lit ("הלו")],
    RE.starCls greetTailCls, RE.eol]

/-- Farewell pattern (anchored): `^(thanks|…|יאללה ביי)[.!?\s]*$`. -/
def farewellRE : RE :=
  catList [RE.bol,
    altList [lit ("thanks"), lit ("thank you"), lit ("bye"), lit ("goodbye"),
      lit ("see you"), lit ("have a good day"), lit ("good night"),
      lit ("תודה"), lit ("תודה רבה"), lit ("ביי"), lit ("ביביי"),
      lit ("להתראות"), lit ("יום טוב"), lit ("לילה טוב"),
      lit ("שבוע טוב"), lit ("יאללה ביי")],
    RE.starCls greetTailCls, RE.eol]

/-- `(an?\s*)?` — the optional article of the booking pattern. -/
def optArticle : RE :=
  RE.opt (catList [chC 'a', RE.opt (chC 'n'), wsStar])

/-- Appointment-booking pattern (unanchored). -/
def bookingRE : RE :=
  altList [
    catList [lit ("book"), wsStar, optArticle, lit ("appointment")],
    catList [lit ("make"), wsStar, optArticle, lit ("appointment")],
    catList [lit ("schedule"), wsStar, optArticle, lit ("appointment")],
    catList [lit ("set"), wsStar, lit ("up"), wsStar, optArticle, lit ("appointment")],
    catList [lit ("i"), wsStar, lit ("want"), wsStar, optArticle, lit ("appointment")],
    wsJoin [("i"), ("want"), ("to"), ("book")],
    wsJoin [("רוצה"), ("תור")],
    wsJoin [("רוצה"), ("לקבוע"), ("תור")],
    wsJoin [("לקבוע"), ("תור")],
    wsJoin [("אפשר"), ("תור")],
    wsJoin [("אפשר"), ("לקבוע"), ("תור")],
    wsJoin [("קביעת"), ("תור")],
    wsJoin [("לזמן"), ("תור")],
    wsJoin [("אני"), ("רוצה"), ("לקבוע"), ("תור")],
    wsJoin [("בואו"), ("נקבע"), ("תור")],
    wsJoin [("יש"), ("תורים"), ("פנויים")],
    wsJoin [("מתי"), ("אפשר"), ("לקבוע"), ("תור")]]

/-- `(את\s*)?ה?` — the optional direct-object marker of the cancel pattern. -/
def optEtHey : RE :=
  catList [RE.opt (catList [lit ("את"), wsStar]), RE.opt (chC 'ה')]

/-- Appointment-cancel pattern (unanchored). -/
def cancelRE : RE :=
  altList [
    catList [lit ("cancel"), wsStar, RE.opt (catList [lit ("my"), wsStar]),
      lit ("appointment")],
    catList [lit ("cancel"), wsStar, RE.opt (catList [lit ("my"), wsStar]),
      lit ("booking")],
    catList [lit ("i"), wsStar, lit ("want"), wsStar, lit ("to"), wsStar,
      lit ("cancel"), wsStar, RE.opt (catList [lit ("my"), wsStar]),
      altList [lit ("appointment"), lit ("booking"),
        catList [lit ("the"), wsStar, lit ("appointment")]]],
    catList [lit ("לבטל"), wsStar, optEtHey, lit ("תור")],
    catList [lit ("ביטול"), wsStar, RE.opt (chC 'ה'), lit ("תור")],
    catList [lit ("רוצה"), wsStar, lit ("לבטל"), wsStar, optEtHey, lit ("תור")],
    catList [lit ("אני"), wsStar, lit ("מבטל"), wsStar, optEtHey, lit ("תור")],
    wsJoin [("אני"), ("רוצה"), ("לבטל"), ("את"), ("התור")],
    catList [lit ("אני"), wsStar, lit ("צריך"), wsStar, lit ("לבטל"), wsStar,
      optEtHey, lit ("תור")]]

/-- Pricing pattern (unanchored), including `what.*price\b` and
`what.*cost\b` with their word boundaries. -/
def pricingRE : RE :=
  altList [
    wsJoin [("how"), ("much")],
    catList [lit ("what"), dotStar, lit ("price"), RE.bdry],
    catList [lit ("what"), dotStar, lit ("cost"), RE.bdry],
    lit ("pricing"),
    wsJoin [("price"), ("list")],
    wsJoin [("כמה"), ("עולה")],
    wsJoin [("כמה"), ("זה"), ("עולה")],
    wsJoin [("מה"), ("המחיר")],
    wsJoin [("מה"), ("העלות")],
    lit ("מחיר"),
    lit ("מחירון"),
    lit ("מחירים"),
    wsJoin [("כמה"), ("יעלה")],
    wsJoin [("כמה"), ("כסף")],
    lit ("עלות"),
    lit ("תעריף"),
    lit ("תעריפים")]

/-- `_INTENT_PATTERNS` of `src/intent.py`: priority-ordered — greeting,
farewell, appointment booking, appointment cancel, pricing.  (Note the
order: booking comes before pricing.) -/
def INTENT_PATTERNS : List (Intent × RE) :=
  [(Intent.greeting, greetingRE),
   (Intent.farewell, farewellRE),
   (Intent.appointment_booking, bookingRE),
   (Intent.appointment_cancel, cancelRE),
   (Intent.pricing, pricingRE)]

/-- First pattern in priority order whose search succeeds. -/
def firstIntent : List (Intent × RE) → Str → Intent
  | [], _ => .general
  | (i, r) :: rest, t => if reSearch r t then i else firstIntent rest t

/-- `detect_intent` of `src/intent.py`: strip, empty → GENERAL, otherwise
first matching pattern in priority order, else GENERAL.  `re.IGNORECASE`
is modelled by lowercasing the input. -/
def detect_intent (message : Str) : Intent :=
  if pyStrip message = [] then .general
  else firstIntent INTENT_PATTERNS (lowerStr (pyStrip message))

/-- `_GREETING_RESPONSES[0]` of `src/intent.py`. -/
def GREETING_RESPONSE : Str :=
  S ("שלום! 👋 ברוכים הבאים. איך אפשר לעזור לכם היום?")

/-- `_FAREWELL_RESPONSES[0]` of `src/intent.py`. -/
def FAREWELL_RESPONSE : Str :=
  S ("תודה שפניתם אלינו! 😊 אם תצטרכו עוד משהו, אנחנו כאן.\n\nנשמח לשמוע מכם — איך הייתה החוויה שלכם?")

/-- `get_direct_response` of `src/intent.py`. -/
def get_direct_response : Intent → Option Str
  | .greeting => some GREETING_RESPONSE
  | .farewell => some FAREWELL_RESPONSE
  | _ => none

-- ── The free-text routing slice of `message_handler` (`src/bot/handlers.py`,
-- lines 704–775) ─────────────────────────────────────────────────────────────

/-- What the free-text branch of `message_handler` decides to do. -/
inductive BotAction where
  | directReply (t : Str)
  | hoursReply
  | vacationMsg
  | bookingNudge
  | cancelConfirm
  | ragQuery (q : Str)
deriving DecidableEq

/-- Outcome of running a piece of Python: a value, or an uncaught
`AttributeError`. -/
inductive PyOutcome (α : Type) where
  | ok (a : α)
  | attributeError
deriving DecidableEq

/-- The intent routing of `message_handler` (`src/bot/handlers.py` 704–775),
after the menu-button shortcuts.  The guard `intent == Intent.BUSINESS_HOURS`
at line 716 first evaluates the attribute `Intent.BUSINESS_HOURS`; attribute
lookup is modelled by `Intent.pyAttr`, and a failed lookup raises
`AttributeError`. -/
def message_handler_route (vacation_active : Bool) (user_message : Str) :
    PyOutcome BotAction :=
  if detect_intent user_message = Intent.greeting ∨
      detect_intent user_message = Intent.farewell then
    PyOutcome.ok (BotAction.directReply
      ((get_direct_response (detect_intent user_message)).getD []))
  else
    match Intent.pyAttr (S ("BUSINESS_HOURS")) with
    | none => PyOutcome.attributeError
    | some bh =>
        if detect_intent user_message = bh then PyOutcome.ok BotAction.hoursReply
        else if detect_intent user_message = Intent.appointment_booking then
          PyOutcome.ok
            (if vacation_active then BotAction.vacationMsg else BotAction.bookingNudge)
        else if detect_intent user_message = Intent.appointment_cancel then
          PyOutcome.ok BotAction.cancelConfirm
        else
          PyOutcome.ok (BotAction.ragQuery
            (if detect_intent user_message = Intent.pricing then
              S ("מחירון: ") ++ user_message
            else user_message))

-- ════════════════════════════════════════════════════════════════════════════
-- LLM quality check (Layer C) — `src/llm.py`, `src/config.py`
-- ════════════════════════════════════════════════════════════════════════════

/-- `SOURCE_CITATION_PATTERN = r"([Ss]ource|מקור):\s*.+"` from
`src/config.py` line 202.  Note: only the first letter of `source` is
case-insensitive; the pattern is compiled without `re.IGNORECASE`. -/
def SOURCE_CITATION_RE : RE :=
  catList [
    RE.alt (RE.cat (RE.cls (fun c => c = 'S' || c = 's')) (lit ("ource")))
      (lit ("מקור")),
    chC ':', wsStar, dotCls, dotStar]

/-- The fully case-insensitive citation pattern `(source|מקור):\s*.+` the
specification describes.  This definition follows the claim's words, for
comparison with `SOURCE_CITATION_RE` which is translated from the source. -/
def citationPatternSpecCI : RE :=
  catList [
    RE.alt (catList ((S ("source")).map
      (fun c => RE.cls (fun x => asciiLower x = c)))) (lit ("מקור")),
    chC ':', wsStar, dotCls, dotStar]

/-- `FALLBACK_RESPONSE` from `src/config.py` lines 203–207. -/
def FALLBACK_RESPONSE : Str :=
  S ("אין לי את המידע הזה כרגע. תנו לי להעביר אתכם לנציג אנושי שיוכל לעזור. נציג אנושי יחזור אליכם בקרוב!")

/-- `_quality_check` of `src/llm.py` lines 124–144: return the response if
the citation pattern is found, else the fallback string. -/
def quality_check (response_text : Str) : Str :=
  if reSearch SOURCE_CITATION_RE response_text then response_text
  else FALLBACK_RESPONSE

/-- The pattern `r"\n*" + SOURCE_CITATION_PATTERN` used by
`strip_source_citation`. -/
def STRIP_CITATION_RE : RE :=
  RE.cat (RE.starCls (fun c => c = '\n')) SOURCE_CITATION_RE

/-- `strip_source_citation` of `src/llm.py` lines 193–201:
`re.sub(r"\n*" + SOURCE_CITATION_PATTERN, "", response_text).strip()`. -/
def strip_source_citation (response_text : Str) : Str :=
  pyStrip (reSubDel STRIP_CITATION_RE response_text)

/-- Python truthiness of an optional string (`if … and user_id:`). -/
def pyTruthyStr : Option Str → Bool
  | none => false
  | some s => !s.isEmpty

/-- The post-LLM phase of `generate_answer` (`src/llm.py` lines 408–434):
follow-up extraction (when enabled), the Layer-C quality check, and on
fallback with a truthy `user_id` the clearing of the follow-up list and the
insertion of an `unanswered_questions` row.  The extraction functions
`extract_follow_up_questions` / `strip_follow_up_questions` are passed as
parameters: the claims touch only the emptiness of the resulting list.
Returns (final answer, follow-up questions, unanswered-questions table). -/
def generate_answer_post (fuEnabled : Bool) (extractFU : Str → List Str)
    (stripFU : Str → Str) (raw : Str) (user_id : Option Str)
    (username : Option Str) (user_query : Str)
    (table : List (Str × Str × Str)) :
    Str × List Str × List (Str × Str × Str) :=
  let fu0 := if fuEnabled then extractFU raw else []
  let raw1 := if fuEnabled then stripFU raw else raw
  let finalAnswer := quality_check raw1
  if finalAnswer = FALLBACK_RESPONSE ∧ pyTruthyStr user_id = true then
    (finalAnswer, [], table ++ [(user_id.getD [], username.getD [], user_query)])
  else
    (finalAnswer, fu0, table)

-- ════════════════════════════════════════════════════════════════════════════
-- Handler event traces — `src/bot/handlers.py`
-- ════════════════════════════════════════════════════════════════════════════
-- For the ordering claim (persist before reply) the handlers are modelled as
-- the sequence of externally visible events they perform, in program order:
-- `save` is `db.save_message`, `send` is a reply delivered to the customer,
-- `ownerNotify` is the owner-chat notification, `agentRequest` is
-- `db.create_agent_request`, `chatAction` is the typing indicator.

inductive HEv where
  | save (user_id username role text : Str)
  | send (text : Str)
  | ownerNotify (text : Str)
  | agentRequest (reason : Str)
  | chatAction
deriving DecidableEq

/-- Check that every customer-visible `send` is preceded by a `save` whose
stored text is what was sent, either verbatim or up to citation stripping
(`saved` accumulates the texts persisted so far). -/
def replyOK (saved : List Str) : List HEv → Bool
  | [] => true
  | HEv.save _ _ _ s :: tr => replyOK (s :: saved) tr
  | HEv.send t :: tr =>
      (saved.any fun s => s = t || strip_source_citation s = t) && replyOK saved tr
  | _ :: tr => replyOK saved tr

/-- Every reply in the trace was persisted in `conversations` first. -/
def persistedBeforeReply (tr : List HEv) : Bool := replyOK [] tr

/-- The welcome text of `start_command` (`src/bot/handlers.py` 204–212),
parameterised by the configured business name. -/
def welcome_base (business_name : Str) : Str :=
  S ("👋 ברוכים הבאים ל-*") ++ business_name ++
  S ("*!\n\nאני העוזר הווירטואלי שלכם. אני יכול לעזור לכם עם:\n• מידע על השירותים והמחירים שלנו\n• בקשת תורים\n• מענה על שאלות\n• חיבור לנציג אנושי\n\nפשוט כתבו את השאלה שלכם או השתמשו בכפתורים למטה! 👇")

/-- The referral bonus appended to the welcome text when a referral code was
registered (`src/bot/handlers.py` 214–219). -/
def welcome_referral_suffix : Str :=
  S ("\n\n🎁 *הגעתם דרך הפניה!* לאחר שתקבעו ותשלימו את התור הראשון שלכם — גם אתם וגם החבר/ה שהפנה אתכם תקבלו *10% הנחה לחודשיים!*")

/-- Event trace of `start_command` (`src/bot/handlers.py` 186–229): the
welcome message is sent first, and only then are the `/start` user row and
the `[Welcome message sent]` assistant row persisted. -/
def start_command_trace (business_name : Str) (referral_registered : Bool)
    (user_id display_name : Str) : List HEv :=
  [HEv.send (welcome_base business_name ++
      (if referral_registered then welcome_referral_suffix else [])),
   HEv.save user_id display_name (S ("user")) (S ("/start")),
   HEv.save user_id display_name (S ("assistant")) (S ("[Welcome message sent]"))]

/-- Does `hay` start with `needle`? -/
def strStartsWith : Str → Str → Bool
  | _, [] => true
  | [], _ :: _ => false
  | h :: hs, n :: ns => h = n && strStartsWith hs ns

/-- Python's `needle in hay` substring test. -/
def strContains : Str → Str → Bool
  | [], needle => needle.isEmpty
  | h :: t, needle => strStartsWith (h :: t) needle || strContains t needle

/-- `_should_handoff_to_human` of `src/bot/handlers.py` 111–123. -/
def should_handoff_to_human (text : Str) : Bool :=
  if text.isEmpty then false
  else if pyStrip text = pyStrip FALLBACK_RESPONSE then true
  else strContains (pyStrip text) (S ("תנו לי להעביר")) &&
    strContains (pyStrip text) (S ("נציג אנושי"))

/-- Event trace of `_handoff_to_human` (`src/bot/handlers.py` 160–181),
inlining `_create_request_and_notify_owner`: agent request, owner
notification, persist the fallback reply, then send it. -/
def handoff_trace (user_id display_name reason : Str) : List HEv :=
  [HEv.agentRequest reason, HEv.ownerNotify reason,
   HEv.save user_id display_name (S ("assistant")) FALLBACK_RESPONSE,
   HEv.send FALLBACK_RESPONSE]

/-- Event trace of `_handle_rag_query` (`src/bot/handlers.py` 638–676):
typing indicator, persist the inbound user message, run the LLM (the
resulting raw answer is the parameter `answer`), then either hand off or
persist the raw answer and send its citation-stripped form. -/
def handle_rag_query_trace (user_id display_name user_message : Str)
    (answer : Str) (handoff_reason : Str) : List HEv :=
  [HEv.chatAction,
   HEv.save user_id display_name (S ("user")) user_message] ++
  (if should_handoff_to_human (strip_source_citation answer) then
    handoff_trace user_id display_name handoff_reason
  else
    [HEv.save user_id display_name (S ("assistant")) answer,
     HEv.send (strip_source_citation answer)])

-- ════════════════════════════════════════════════════════════════════════════
-- Conversation memory & summarization — `src/database.py`, `src/llm.py`
-- ════════════════════════════════════════════════════════════════════════════

/-- A row of the `conversations` table.  `id` is the AUTOINCREMENT primary
key (starting at 1, monotonically increasing). -/
structure ConvMsg where
  id : Nat
  user_id : Str
  username : Str
  role : Str
  message : Str
deriving DecidableEq

/-- A row of the `conversation_summaries` table (the model keeps rows in
insertion order, newest last, which realises `ORDER BY id DESC LIMIT 1`). -/
structure ConvSummary where
  user_id : Str
  summary_text : Str
  message_count : Nat
  last_summarized_message_id : Nat
deriving DecidableEq

/-- The relevant slice of the SQLite database. -/
structure ConvDB where
  conversations : List ConvMsg
  summaries : List ConvSummary
  nextId : Nat
deriving DecidableEq

/-- `save_message` of `src/database.py` 423–429: append a conversation row
with the next AUTOINCREMENT id. -/
def conv_save_message (db : ConvDB) (user_id username role text : Str) : ConvDB :=
  { db with
    conversations := db.conversations ++
      [{ id := db.nextId, user_id := user_id, username := username,
         role := role, message := text }],
    nextId := db.nextId + 1 }

/-- `max` over a list of naturals, with SQL's `COALESCE(…, 0)` default. -/
def natFoldMax (xs : List Nat) : Nat := xs.foldr max 0

/-- `_last_summarized_message_id` of `src/database.py` 480–487:
`COALESCE(MAX(last_summarized_message_id), 0)` over the user's rows. -/
def lastSummarizedId (db : ConvDB) (u : Str) : Nat :=
  natFoldMax ((db.summaries.filter (fun s => decide (s.user_id = u))).map
    (fun s => s.last_summarized_message_id))

/-- The `WHERE user_id = ? AND id > ?` predicate. -/
def msgAfter (u : Str) (last : Nat) (m : ConvMsg) : Bool :=
  decide (m.user_id = u) && decide (last < m.id)

/-- `get_unsummarized_message_count` of `src/database.py` 490–504. -/
def get_unsummarized_message_count (db : ConvDB) (u : Str) : Nat :=
  (db.conversations.filter (msgAfter u (lastSummarizedId db u))).length

/-- `get_messages_for_summarization` of `src/database.py` 507–524:
the oldest `limit` rows above the high-water mark (`ORDER BY id ASC` is
realised by the id-sortedness invariant of `conversations`). -/
def get_messages_for_summarization (db : ConvDB) (u : Str) (limit : Nat) :
    List ConvMsg :=
  (db.conversations.filter (msgAfter u (lastSummarizedId db u))).take limit

/-- `save_conversation_summary` of `src/database.py` 527–561: accumulate the
total message count, carry the previous high-water mark forward when the
argument is `0` (Python `if not last_summarized_message_id`), and replace
all of the user's summary rows with the single merged one. -/
def save_conversation_summary (db : ConvDB) (u : Str) (text : Str)
    (message_count : Nat) (last_summarized_message_id : Nat) : ConvDB :=
  let total :=
    ((db.summaries.filter (fun s => decide (s.user_id = u))).map
      (fun s => s.message_count)).sum + message_count
  let mark :=
    if last_summarized_message_id = 0 then lastSummarizedId db u
    else last_summarized_message_id
  { db with
    summaries := (db.summaries.filter (fun s => !(decide (s.user_id = u)))) ++
      [{ user_id := u, summary_text := text, message_count := total,
         last_summarized_message_id := mark }] }

/-- `get_latest_summary` of `src/database.py` 564–573 (`ORDER BY id DESC
LIMIT 1` — the newest row is the last inserted). -/
def get_latest_summary (db : ConvDB) (u : Str) : Option ConvSummary :=
  (db.summaries.filter (fun s => decide (s.user_id = u))).getLast?

/-- `maybe_summarize` of `src/llm.py` 274–329 (single-call semantics; the
per-user lock only rules out concurrent runs).  `llm` is `_generate_summary`:
it receives the messages and the prior summary text and returns `none` on
provider failure.  Below threshold, or on provider failure, the database is
untouched; on success the merged summary is stored with
`last_summarized_message_id = max(id of the summarized messages)`. -/
def maybe_summarize (llm : List ConvMsg → Option Str → Option Str)
    (threshold : Nat) (db : ConvDB) (u : Str) : ConvDB :=
  if get_unsummarized_message_count db u < threshold then db
  else if (get_messages_for_summarization db u threshold).isEmpty then db
  else
    match llm (get_messages_for_summarization db u threshold)
        ((get_latest_summary db u).map (fun s => s.summary_text)) with
    | none => db
    | some text =>
        save_conversation_summary db u text
          (get_messages_for_summarization db u threshold).length
          (natFoldMax ((get_messages_for_summarization db u threshold).map
            (fun m => m.id)))

/-- The database invariant the schema provides: conversation ids are
strictly increasing in insertion order, positive, and below the cursor. -/
def convOK (db : ConvDB) : Prop :=
  db.conversations.Pairwise (fun a b => a.id < b.id) ∧
  ∀ m ∈ db.conversations, 1 ≤ m.id ∧ m.id < db.nextId

-- ════════════════════════════════════════════════════════════════════════════
-- Live-chat sessions — `src/database.py` 721–758, `src/live_chat_service.py`
-- ════════════════════════════════════════════════════════════════════════════

/-- A row of the `live_chats` table. -/
structure LCRow where
  id : Nat
  user_id : Str
  username : Str
  is_active : Bool
deriving DecidableEq

/-- The live-chat slice of the database. -/
structure LCDB where
  live_chats : List LCRow
  nextId : Nat
deriving DecidableEq

/-- The `UPDATE … SET is_active=0 WHERE user_id=? AND is_active=1` row
transformation. -/
def deactivateRow (u : Str) (r : LCRow) : LCRow :=
  if decide (r.user_id = u) && r.is_active then { r with is_active := false }
  else r

/-- `start_live_chat` of `src/database.py` 721–734: end any existing active
session for this user first, then insert a fresh active row. -/
def start_live_chat (db : LCDB) (user_id username : Str) : LCDB :=
  { live_chats := (db.live_chats.map (deactivateRow user_id)) ++
      [{ id := db.nextId, user_id := user_id, username := username,
         is_active := true }],
    nextId := db.nextId + 1 }

/-- `end_live_chat` of `src/database.py` 737–743. -/
def end_live_chat (db : LCDB) (user_id : Str) : LCDB :=
  { db with live_chats := db.live_chats.map (deactivateRow user_id) }

/-- `is_live_chat_active` of `src/database.py` 756–758 (via
`get_active_live_chat`: is there a row with this user and `is_active=1`?). -/
def is_live_chat_active (db : LCDB) (u : Str) : Bool :=
  db.live_chats.any (fun r => decide (r.user_id = u) && r.is_active)

/-- Observable events of the live-chat service, in program order. -/
inductive LCEv where
  | deactivatePrior (u : Str)
  | insertActive (u : Str)
  | tgSend (u text : Str)
  | saveMsg (u text : Str)
  | deactivate (u : Str)
deriving DecidableEq

/-- The customer notification sent by `LiveChatService.start`. -/
def LIVE_CHAT_JOIN_MSG : Str :=
  S ("👤 נציג אנושי הצטרף לשיחה. כעת תקבלו מענה ישיר.")

/-- The customer notification sent by `LiveChatService.end`. -/
def LIVE_CHAT_END_MSG : Str :=
  S ("🤖 הבוט חזר לנהל את השיחה. אם תרצו לדבר עם נציג שוב, לחצו על \x27דברו עם נציג\x27.")

/-- `LiveChatService.start` (`src/live_chat_service.py` 89–111): idempotent
guard, then mark active (ending stale rows first), then notify and persist
the transition message when the telegram send succeeded.  `tgOk` is the
transport outcome.  Returns ((telegram_sent, status), state, events). -/
def LiveChatService_start (db : LCDB) (u username : Str) (tgOk : Bool) :
    (Bool × Str) × LCDB × List LCEv :=
  if is_live_chat_active db u then ((true, S ("already_active")), db, [])
  else
    ((tgOk, if tgOk then S ("started") else S ("telegram_failed")),
     start_live_chat db u username,
     [LCEv.deactivatePrior u, LCEv.insertActive u,
      LCEv.tgSend u LIVE_CHAT_JOIN_MSG] ++
     (if tgOk then [LCEv.saveMsg u LIVE_CHAT_JOIN_MSG] else []))

/-- `LiveChatService.end` (`src/live_chat_service.py` 113–140): idempotent
guard; otherwise send the "bot is back" message, persist it if sent, and
deactivate only afterwards. -/
def LiveChatService_end (db : LCDB) (u : Str) (tgOk : Bool) :
    (Bool × Str) × LCDB × List LCEv :=
  if !(is_live_chat_active db u) then ((true, S ("already_ended")), db, [])
  else
    ((tgOk, if tgOk then S ("ended") else S ("telegram_failed")),
     end_live_chat db u,
     [LCEv.tgSend u LIVE_CHAT_END_MSG] ++
     (if tgOk then [LCEv.saveMsg u LIVE_CHAT_END_MSG] else []) ++
     [LCEv.deactivate u])

/-- The live-chat invariant: each user has at most one active row. -/
def atMostOneActive (db : LCDB) : Prop :=
  ∀ u : Str,
    (db.live_chats.filter (fun r => decide (r.user_id = u) && r.is_active)).length ≤ 1

-- ════════════════════════════════════════════════════════════════════════════
-- Referral service — `src/referral_service.py`, `src/database.py` 992–1018
-- ════════════════════════════════════════════════════════════════════════════

/-- A row of the `referrals` table (`sent` is the flag of the spec's data
model §3; see `mark_referral_code_as_sent` below). -/
structure Referral where
  referrer_id : Str
  referred_id : Option Str
  code : Str
  status : Str
  sent : Bool
deriving DecidableEq

/-- The referral slice of the database. -/
structure RDB where
  referrals : List Referral
deriving DecidableEq

/-- Does a referral row with this code exist? -/
def codeExists (db : RDB) (c : Str) : Bool :=
  db.referrals.any (fun r => decide (r.code = c))

/-- The collision-retry loop of `generate_referral_code`: candidate codes
are `REF_` plus a hash of `(user_id, timestamp[, "_retry"…])`, abstracted as
the stream `hash`; retry while the candidate exists.  The fuel bounds the
loop (the Python `while` retries unboundedly; with an injective hash the
fuel `|referrals| + 1` always suffices by pigeonhole). -/
def freshCode (hash : Nat → Str) (db : RDB) : Nat → Nat → Str
  | 0, i => S ("REF_") ++ hash i
  | fuel + 1, i =>
      if codeExists db (S ("REF_") ++ hash i) then freshCode hash db fuel (i + 1)
      else S ("REF_") ++ hash i

/-- `generate_referral_code` of `src/database.py` 992–1018: idempotent —
return the existing code if the user already has a referrer row, else
insert a fresh `pending` row and return its code. -/
def generate_referral_code (hash : Nat → Str) (db : RDB) (u : Str) :
    Str × RDB :=
  match db.referrals.find? (fun r => decide (r.referrer_id = u)) with
  | some r => (r.code, db)
  | none =>
      (freshCode hash db (db.referrals.length + 1) 0,
       { referrals := db.referrals ++
          [{ referrer_id := u, referred_id := none,
             code := freshCode hash db (db.referrals.length + 1) 0,
             status := S ("pending"), sent := false }] })

/-- Set or clear the `sent` flag on the user's referral row(s). -/
def setSent (b : Bool) (u : Str) (r : Referral) : Referral :=
  if decide (r.referrer_id = u) then { r with sent := b } else r

/-- Modelled from the spec: `mark_referral_code_as_sent` is missing from
`src/database.py` in this snapshot — only its callers
(`src/referral_service.py` line 46) and its test
(`src/tests/test_database.py` lines 298–303) reference it.  Spec §4.12:
"`mark_sent` (returns true only on the first success, guarded by a unique
transition)": flip the user's `sent` flag 0→1, reporting whether a row
actually transitioned. -/
def mark_referral_code_as_sent (db : RDB) (u : Str) : Bool × RDB :=
  if db.referrals.any (fun r => decide (r.referrer_id = u) && !r.sent) then
    (true, { referrals := db.referrals.map (setSent true u) })
  else (false, db)

/-- Modelled from the spec: `unmark_referral_code_sent` is missing from
`src/database.py` in this snapshot — only `src/referral_service.py` line 57
references it.  Spec §4.12: "If send fails, `unmark_sent` to allow a future
retry": clear the user's `sent` flag. -/
def unmark_referral_code_sent (db : RDB) (u : Str) : RDB :=
  { referrals := db.referrals.map (setSent false u) }

/-- `build_referral_link` of `src/referral_service.py` 17–21. -/
def build_referral_link (botUsername code : Str) : Str :=
  if botUsername.isEmpty then code
  else S ("https://t.me/") ++ botUsername ++ S ("?start=") ++ code

/-- `get_referral_message_text` of `src/referral_service.py` 24–32. -/
def get_referral_message_text (botUsername code : Str) : Str :=
  S ("🎁 רוצים לשתף עם חבר/ה?\n\nשלחו להם את הלינק הזה:\n") ++
  build_referral_link botUsername code ++
  S ("\n\nכשהם יקבעו וישלימו תור — גם אתם וגם הם תקבלו 10% הנחה לחודשיים!")

/-- The `try/except` around `send_fn`: an exception counts as failure. -/
def sendResultBool : Except Unit Bool → Bool
  | Except.ok b => b
  | Except.error _ => false

/-- Observable events of the send-code flow, in program order. -/
inductive RefEv where
  | generate (code : Str)
  | markSent (result : Bool)
  | send (text : Str)
  | unmarkSent
deriving DecidableEq

/-- `try_send_referral_code` of `src/referral_service.py` 35–61:
generate → mark-sent (abort if already sent) → build text → transport send
(exceptions count as failure) → unmark on failure.  Returns
(sent?, state, events). -/
def try_send_referral_code (hash : Nat → Str) (botUsername : Str) (db : RDB)
    (u : Str) (send_fn : Str → Except Unit Bool) : Bool × RDB × List RefEv :=
  if (generate_referral_code hash db u).1.isEmpty then
    (false, (generate_referral_code hash db u).2,
     [RefEv.generate (generate_referral_code hash db u).1])
  else if (mark_referral_code_as_sent
      (generate_referral_code hash db u).2 u).1 = false then
    (false, (mark_referral_code_as_sent (generate_referral_code hash db u).2 u).2,
     [RefEv.generate (generate_referral_code hash db u).1, RefEv.markSent false])
  else if sendResultBool (send_fn (get_referral_message_text botUsername
      (generate_referral_code hash db u).1)) then
    (true, (mark_referral_code_as_sent (generate_referral_code hash db u).2 u).2,
     [RefEv.generate (generate_referral_code hash db u).1, RefEv.markSent true,
      RefEv.send (get_referral_message_text botUsername
        (generate_referral_code hash db u).1)])
  else
    (false,
     unmark_referral_code_sent
       (mark_referral_code_as_sent (generate_referral_code hash db u).2 u).2 u,
     [RefEv.generate (generate_referral_code hash db u).1, RefEv.markSent true,
      RefEv.send (get_referral_message_text botUsername
        (generate_referral_code hash db u).1),
      RefEv.unmarkSent])

-- ════════════════════════════════════════════════════════════════════════════
-- Incremental index rebuild — `src/rag/engine.py` 164–232 (steps 3–4)
-- ════════════════════════════════════════════════════════════════════════════

/-- A chunk freshly produced by `create_chunks_for_entry` (step 1 of
`rebuild_index`): its entry id, its `index` within the entry, its text. -/
structure NewChunk where
  entry_id : Nat
  index : Nat
  text : Str
deriving DecidableEq

/-- A stored `kb_chunks` row as returned by `get_chunks_for_entries`
(`src/database.py` 395–418).  `embedding` is the raw blob read as a vector;
`none` and `some []` are both falsy, like the Python bytes value. -/
structure StoredChunk where
  entry_id : Nat
  chunk_index : Nat
  chunk_text : Str
  embedding : Option (List Int)
deriving DecidableEq

/-- `new_texts = [c["text"] for c in new_chunks]` for one entry
(`chunks_by_entry` groups `all_chunks` by entry in creation order, which
filtering reproduces). -/
def newTexts (chunks : List NewChunk) (e : Nat) : List Str :=
  (chunks.filter (fun c => decide (c.entry_id = e))).map (fun c => c.text)

/-- `old_texts = [c["chunk_text"] for c in old_chunks]` for one entry
(the grouped dict of `get_chunks_for_entries`, in stored order). -/
def oldTexts (stored : List StoredChunk) (e : Nat) : List Str :=
  (stored.filter (fun s => decide (s.entry_id = e))).map (fun s => s.chunk_text)

/-- Step 3 classification: an entry is initially unchanged iff
`new_texts == old_texts` (the additional `len(old_chunks) == len(new_chunks)`
comparison in the source is implied by the list equality). -/
def initUnchanged (chunks : List NewChunk) (stored : List StoredChunk)
    (e : Nat) : Bool :=
  decide (newTexts chunks e = oldTexts stored e)

/-- `matching = [c for c in old_chunks if c["chunk_index"] == chunk["index"]]`
(position-match by `chunk_index` within the entry's stored chunks). -/
def matchingStored (stored : List StoredChunk) (c : NewChunk) :
    List StoredChunk :=
  (stored.filter (fun s => decide (s.entry_id = c.entry_id))).filter
    (fun s => decide (s.chunk_index = c.index))

/-- Truthiness of the stored embedding blob (`matching[0]["embedding"]`). -/
def embTruthy : Option (List Int) → Bool
  | none => false
  | some e => !e.isEmpty

/-- `matching and matching[0]["embedding"]`: a position-matched stored chunk
exists and its embedding blob is truthy. -/
def reuseOK (stored : List StoredChunk) (c : NewChunk) : Bool :=
  match matchingStored stored c with
  | [] => false
  | m :: _ => embTruthy m.embedding

/-- The embedding that the reuse branch reads (`matching[0]["embedding"]`). -/
def matchedEmb (stored : List StoredChunk) (c : NewChunk) :
    Option (List Int) :=
  match matchingStored stored c with
  | [] => none
  | m :: _ => m.embedding

/-- Boolean set membership for the `changed_entry_ids` working set. -/
def elemB (l : List Nat) (e : Nat) : Bool :=
  l.any (fun x => decide (x = e))

/-- Working state of the step-4 loop: entry ids reclassified as changed so
far, the `all_embeddings` list (`none` is the placeholder), and the
`new_embed_texts` list, all in program order. -/
structure RebuildState where
  changed : List Nat
  embAcc : List (Option (List Int))
  embTexts : List Str
deriving DecidableEq

/-- One iteration of the step-4 loop (`engine.py` 203–219).  If the chunk's
entry is still unchanged (`u` is the step-3 snapshot; ids discarded from the
unchanged set are exactly those accumulated in `changed`) and a truthy
position-matched stored embedding exists, reuse it and continue; otherwise
reclassify the entry as changed (the two source paths — no match, falsy
blob — both do) and fall through to the placeholder-and-text append, which
the initially-changed entries also take. -/
def step4Chunk (u : Nat → Bool) (stored : List StoredChunk)
    (st : RebuildState) (c : NewChunk) : RebuildState :=
  if u c.entry_id && !elemB st.changed c.entry_id then
    if reuseOK stored c then
      { changed := st.changed,
        embAcc := st.embAcc ++ [matchedEmb stored c],
        embTexts := st.embTexts }
    else
      { changed := c.entry_id :: st.changed,
        embAcc := st.embAcc ++ [none],
        embTexts := st.embTexts ++ [c.text] }
  else
    { changed := st.changed,
      embAcc := st.embAcc ++ [none],
      embTexts := st.embTexts ++ [c.text] }

/-- The whole step-4 loop over `all_chunks`, from empty working state. -/
def step4Run (stored : List StoredChunk) (chunks : List NewChunk) :
    RebuildState :=
  chunks.foldl (step4Chunk (initUnchanged chunks stored) stored) ⟨[], [], []⟩

/-- `eid in changed_entry_ids` after the loop: initially changed or
reclassified during the loop. -/
def finalChangedB (stored : List StoredChunk) (chunks : List NewChunk)
    (e : Nat) : Bool :=
  !initUnchanged chunks stored e || elemB (step4Run stored chunks).changed e

/-- `for j, idx in enumerate(new_embed_indices): all_embeddings[idx] =
new_embeddings[j]`: fill the `none` placeholders, in order, with the batch
results. -/
def fillAux : List (Option (List Int)) → List (List Int) → List (List Int)
  | [], _ => []
  | some e :: t, news => e :: fillAux t news
  | none :: t, n :: news => n :: fillAux t news
  | none :: t, [] => [] :: fillAux t []

/-- The embedding matrix and the argument of the single
`get_embeddings_batch` call. -/
structure RebuildResult where
  embeddings : List (List Int)
  embeddedTexts : List Str
deriving DecidableEq

/-- Steps 3–4 of `rebuild_index` (`src/rag/engine.py` 164–232): classify,
loop, then one batched embedding call whose results fill the placeholders. -/
def rebuild_index (embed : List Str → List (List Int))
    (stored : List StoredChunk) (chunks : List NewChunk) : RebuildResult :=
  { embeddings := fillAux (step4Run stored chunks).embAcc
      (embed (step4Run stored chunks).embTexts),
    embeddedTexts := (step4Run stored chunks).embTexts }

-- ════════════════════════════════════════════════════════════════════════════
-- Chunker — `src/rag/chunker.py` 15–87
-- ════════════════════════════════════════════════════════════════════════════

/-- The trailing part of the whitespace run of `l` starting at its last
newline: `re` uses it to decide how far the greedy `\s*` of `\n\s*\n` can
reach — the match must end at the last `\n` inside the run. -/
def lastNLTail (l : Str) : Str :=
  (l.takeWhile isPySpace).reverse.dropWhile (fun x => decide (x ≠ '\n'))

/-- Length of the leftmost-greedy match of `re.split`'s separator pattern
`\n\s*\n` when it starts exactly at the head of `l`: a newline, then the
longest whitespace prefix still followed by a newline — i.e. up to the last
newline of the whitespace run. `none` when no match starts here. -/
def parSepLen (l : Str) : Option Nat :=
  match l with
  | [] => none
  | c :: rest =>
      if c = '\n' then
        if (lastNLTail rest).length = 0 then none
        else some ((lastNLTail rest).length + 1)
      else none

/-- The scan of `re.split(r'\n\s*\n', text)`: at each position try the
separator; on a match emit the accumulated piece and restart after the
match, else advance one character.  The fuel (`length + 1` at top level)
bounds the scan; each step consumes input. -/
def splitParasStep (recur : Str → Str → List Str) (acc l : Str) :
    List Str :=
  match parSepLen l with
  | some n => acc.reverse :: recur [] (l.drop n)
  | none =>
      match l with
      | [] => [acc.reverse]
      | c :: rest => recur (c :: acc) rest

def splitParasAux : Nat → Str → Str → List Str
  | 0 => fun acc l => [acc.reverse ++ l]
  | fuel + 1 => splitParasStep (splitParasAux fuel)

/-- `paragraphs = re.split(r'\n\s*\n', text)` (`chunker.py` line 40). -/
def splitParas (l : Str) : List Str := splitParasAux (l.length + 1) [] l

/-- The lookbehind class `[.!?]` of the sentence separator, applied to the
character preceding the scan position (`none` at the start of the string,
where the lookbehind fails). -/
def isSentPunct : Option Char → Bool
  | some c => c = '.' || c = '!' || c = '?'
  | none => false

/-- The scan of `re.split(r'(?<=[.!?])\s+', para)`: a separator starts at a
whitespace character whose predecessor is `.`, `!` or `?`, and the greedy
`\s+` consumes the whole whitespace run.  After a separator the predecessor
is the run's last character — whitespace, so never `[.!?]`; it is passed as
`some ' '`, which the lookbehind treats identically. -/
def splitSentencesStep (recur : Option Char → Str → Str → List Str)
    (prev : Option Char) (acc l : Str) : List Str :=
  match l with
  | [] => [acc.reverse]
  | c :: rest =>
      if isPySpace c && isSentPunct prev then
        acc.reverse :: recur (some ' ') []
          ((c :: rest).drop ((c :: rest).takeWhile isPySpace).length)
      else recur (some c) (c :: acc) rest

def splitSentencesAux : Nat → Option Char → Str → Str → List Str
  | 0 => fun _ acc l => [acc.reverse ++ l]
  | fuel + 1 => splitSentencesStep (splitSentencesAux fuel)

/-- `sentences = re.split(r'(?<=[.!?])\s+', para)` (`chunker.py` line 61). -/
def splitSentences (l : Str) : List Str :=
  splitSentencesAux (l.length + 1) none [] l

/-- `if current_chunk: chunks.append(current_chunk)` — the pattern of
lines 55–56, 66–67, 76–77 and 84–85 of `chunker.py`. -/
def appendCur (st : List Str × Str) : List Str :=
  if st.2.isEmpty then st.1 else st.1 ++ [st.2]

/-- One iteration of the word loop (`chunker.py` 72–78): join the word into
the current chunk if `len(current) + len(word) + 1 <= max_chars`, else
flush the current chunk and start over from the word. -/
def procWord (maxChars : Nat) (st : List Str × Str) (w : Str) :
    List Str × Str :=
  if st.2.length + w.length + 1 ≤ maxChars then
    (st.1, pyStrip (st.2 ++ ' ' :: w))
  else (appendCur st, w)

/-- One iteration of the sentence loop (`chunker.py` 62–80): join if it
fits, else flush and — for an oversized sentence — run the word loop over
`sentence.split()` from an empty current chunk, otherwise restart from the
sentence. -/
def procSentence (maxChars : Nat) (st : List Str × Str) (s : Str) :
    List Str × Str :=
  if st.2.length + s.length + 1 ≤ maxChars then
    (st.1, pyStrip (st.2 ++ ' ' :: s))
  else if maxChars < s.length then
    (pyWords s).foldl (procWord maxChars) (appendCur st, [])
  else (appendCur st, s)

/-- One iteration of the paragraph loop (`chunker.py` 45–82): strip the
paragraph and skip it when empty; join with `"\n\n"` when it fits; else
flush and either run the sentence loop (oversized paragraph) or restart
from the paragraph. -/
def procPara (maxChars : Nat) (st : List Str × Str) (p : Str) :
    List Str × Str :=
  if (pyStrip p).isEmpty then st
  else if st.2.length + (pyStrip p).length + 2 ≤ maxChars then
    (st.1, pyStrip (st.2 ++ '\n' :: '\n' :: pyStrip p))
  else if maxChars < (pyStrip p).length then
    (splitSentences (pyStrip p)).foldl (procSentence maxChars)
      (appendCur st, [])
  else (appendCur st, pyStrip p)

/-- `chunk_text` of `src/rag/chunker.py` 15–87 with an explicit
`max_tokens`: short texts (`len(text) // 4 <= max_tokens`) return the
stripped text as a single chunk (or nothing); otherwise the paragraph loop
runs over the split with `max_chars = max_tokens * 4`, the last current
chunk is flushed, and the result is
`[c.strip() for c in chunks if c.strip()]`. -/
def chunk_text (text : Str) (max_tokens : Nat) : List Str :=
  if text.length / 4 ≤ max_tokens then
    if (pyStrip text).isEmpty then [] else [pyStrip text]
  else
    ((appendCur ((splitParas text).foldl (procPara (max_tokens * 4))
        ([], []))).filter (fun c => !(pyStrip c).isEmpty)).map pyStrip

/-- Invariant of the chunker state: every flushed chunk and the current
chunk fit in `maxChars` or contain no whitespace. -/
abbrev stOK (maxChars : Nat) (st : List Str × Str) : Prop :=
  (∀ c ∈ st.1, c.length ≤ maxChars ∨ noWS c = true) ∧
  (st.2.length ≤ maxChars ∨ noWS st.2 = true)

/-- Word-provenance invariant: every word of every flushed chunk and of the
current chunk occurs among the target words `T`. -/
abbrev stWordsOK (T : List Str) (st : List Str × Str) : Prop :=
  (∀ c ∈ st.1, ∀ w ∈ pyWords c, w ∈ T) ∧ (∀ w ∈ pyWords st.2, w ∈ T)

/-- A concrete database: three unsummarized messages (ids 1–3) for one user. -/
def dbC7 : ConvDB :=
  { conversations :=
      [{ id := 1, user_id := S ("u1"), username := S ("Dana"),
         role := S ("user"), message := S ("היי") },
       { id := 2, user_id := S ("u1"), username := S ("Dana"),
         role := S ("assistant"), message := S ("שלום") },
       { id := 3, user_id := S ("u1"), username := S ("Dana"),
         role := S ("user"), message := S ("תור") }],
    summaries := [], nextId := 4 }

/-- A concrete live-chat database with one active session. -/
def dbLC : LCDB :=
  { live_chats :=
      [{ id := 1, user_id := S ("u1"), username := S ("Dana"),
         is_active := true }],
    nextId := 2 }

-- ════════════════════════════════════════════════════════════════════════════
-- Theorems
-- ════════════════════════════════════════════════════════════════════════════

-- ── Basic lemmas about the string primitives ────────────────────────────────

theorem length_dropWhile_le (p : Char → Bool) (l : Str) :
    (l.dropWhile p).length ≤ l.length := by
  induction l with
  | nil => simp
  | cons c t ih =>
      by_cases hc : p c = true
      · rw [List.dropWhile_cons_of_pos hc]
        exact le_trans ih (Nat.le_succ _)
      · rw [List.dropWhile_cons_of_neg (by simpa using hc)]

theorem pyLStrip_length_le (l : Str) : (pyLStrip l).length ≤ l.length :=
  length_dropWhile_le isPySpace l

theorem pyRStrip_length_le (l : Str) : (pyRStrip l).length ≤ l.length := by
  have := length_dropWhile_le isPySpace l.reverse
  simpa [pyRStrip] using this

theorem pyStrip_length_le (l : Str) : (pyStrip l).length ≤ l.length :=
  le_trans (pyRStrip_length_le _) (pyLStrip_length_le _)

theorem mem_dropWhile (p : Char → Bool) (l : Str) (x : Char)
    (hx : x ∈ l.dropWhile p) : x ∈ l := by
  induction l with
  | nil => simp at hx
  | cons c t ih =>
      by_cases hc : p c = true
      · rw [List.dropWhile_cons_of_pos hc] at hx
        exact List.mem_cons_of_mem _ (ih hx)
      · rw [List.dropWhile_cons_of_neg (by simpa using hc)] at hx
        exact hx

theorem mem_pyStrip (l : Str) (x : Char) (hx : x ∈ pyStrip l) : x ∈ l := by
  have h1 : x ∈ pyLStrip l := by
    have h2 : x ∈ (pyLStrip l).reverse.dropWhile isPySpace := by
      simp only [pyStrip, pyRStrip, List.mem_reverse] at hx
      exact hx
    have h3 : x ∈ (pyLStrip l).reverse := mem_dropWhile _ _ _ h2
    simpa using h3
  exact mem_dropWhile _ _ _ h1

theorem noWS_pyStrip (l : Str) (h : noWS l = true) : noWS (pyStrip l) = true := by
  simp only [noWS, List.all_eq_true] at h ⊢
  exact fun x hx => h x (mem_pyStrip l x hx)

/-- The fold state of `pyWords` over `a`, starting from a state with finished
words `R`, equals the state over `a` alone with `R` appended. -/
theorem pyWords_fold_state (a : Str) (R : List Str) :
    a.foldr pyWordsStep ([], R) =
      ((a.foldr pyWordsStep ([], [])).1,
        (a.foldr pyWordsStep ([], [])).2 ++ R) := by
  induction a with
  | nil => simp
  | cons c a ih =>
      simp only [List.foldr_cons, ih, pyWordsStep]
      by_cases hc : isPySpace c = true
      · simp only [hc, if_true]
        by_cases h1 : (a.foldr pyWordsStep ([], [])).1 = []
        · simp [h1]
        · simp [h1]
      · simp [hc]

theorem pyWordsFinish_append (st : Str × List Str) (R : List Str) :
    pyWordsFinish (st.1, st.2 ++ R) = pyWordsFinish st ++ R := by
  by_cases h : st.1 = [] <;> simp [pyWordsFinish, h]

/-- Splitting at a single whitespace character concatenates the word lists. -/
theorem pyWords_append_ws (a b : Str) (s : Char) (hs : isPySpace s = true) :
    pyWords (a ++ s :: b) = pyWords a ++ pyWords b := by
  unfold pyWords
  rw [List.foldr_append]
  have hstep : pyWordsStep s (b.foldr pyWordsStep ([], [])) =
      ([], pyWords b) := by
    simp [pyWordsStep, hs, pyWords, pyWordsFinish]
  simp only [List.foldr_cons, hstep]
  rw [pyWords_fold_state a (pyWords b)]
  exact pyWordsFinish_append _ _

/-- A leading whitespace character does not change the word list. -/
theorem pyWords_cons_ws (b : Str) (s : Char) (hs : isPySpace s = true) :
    pyWords (s :: b) = pyWords b := by
  have := pyWords_append_ws [] b s hs
  simpa [pyWords, pyWordsFinish] using this

/-- A trailing whitespace character does not change the word list. -/
theorem pyWords_append_ws_nil (a : Str) (s : Char) (hs : isPySpace s = true) :
    pyWords (a ++ [s]) = pyWords a := by
  have := pyWords_append_ws a [] s hs
  simpa [pyWords, pyWordsFinish] using this

/-- Appending an all-whitespace tail does not change the word list. -/
theorem pyWords_append_all_ws (t : Str) (hws : ∀ c ∈ t, isPySpace c = true) :
    ∀ a, pyWords (a ++ t) = pyWords a := by
  induction t with
  | nil => simp
  | cons s t ih =>
      intro a
      have h1 : a ++ s :: t = (a ++ [s]) ++ t := by simp
      rw [h1, ih (fun c hc => hws c (List.mem_cons_of_mem _ hc)) (a ++ [s]),
        pyWords_append_ws_nil a s (hws s (List.mem_cons_self _ _))]

/-- Prepending an all-whitespace head does not change the word list. -/
theorem pyWords_all_ws_append (t : Str) (hws : ∀ c ∈ t, isPySpace c = true) :
    ∀ a, pyWords (t ++ a) = pyWords a := by
  induction t with
  | nil => simp
  | cons s t ih =>
      intro a
      rw [List.cons_append,
        pyWords_cons_ws (t ++ a) s (hws s (List.mem_cons_self _ _)),
        ih (fun c hc => hws c (List.mem_cons_of_mem _ hc))]

theorem pyWords_pyLStrip (l : Str) : pyWords (pyLStrip l) = pyWords l := by
  conv_rhs => rw [← List.takeWhile_append_dropWhile isPySpace l]
  rw [show pyLStrip l = List.dropWhile isPySpace l from rfl]
  exact (pyWords_all_ws_append _
    (fun c hc => List.mem_takeWhile_imp hc) _).symm

theorem pyWords_pyRStrip (l : Str) : pyWords (pyRStrip l) = pyWords l := by
  have hdecomp : l = pyRStrip l ++ (l.reverse.takeWhile isPySpace).reverse := by
    conv_lhs => rw [← List.reverse_reverse l,
      ← List.takeWhile_append_dropWhile isPySpace l.reverse]
    rw [List.reverse_append]
    rfl
  conv_rhs => rw [hdecomp]
  rw [pyWords_append_all_ws _
    (fun c hc => List.mem_takeWhile_imp (by simpa using hc)) (pyRStrip l)]

theorem pyWords_pyStrip (l : Str) : pyWords (pyStrip l) = pyWords l := by
  unfold pyStrip
  rw [pyWords_pyRStrip, pyWords_pyLStrip]

/-- Every word produced by `str.split()` is non-empty and whitespace-free. -/
theorem pyWords_mem_sound (l : Str) :
    ∀ w ∈ pyWords l, w ≠ [] ∧ noWS w = true := by
  suffices h : ∀ l : Str,
      ((l.foldr pyWordsStep ([], [])).1 ≠ [] →
        noWS (l.foldr pyWordsStep ([], [])).1 = true) ∧
      (∀ w ∈ (l.foldr pyWordsStep ([], [])).2, w ≠ [] ∧ noWS w = true) by
    intro w hw
    have hl := h l
    unfold pyWords pyWordsFinish at hw
    by_cases h1 : (l.foldr pyWordsStep ([], [])).1 = []
    · rw [if_pos h1] at hw
      exact hl.2 w hw
    · rw [if_neg h1] at hw
      rcases List.mem_cons.mp hw with rfl | hw'
      · exact ⟨h1, hl.1 h1⟩
      · exact hl.2 w hw'
  intro l
  induction l with
  | nil => constructor <;> simp
  | cons c t ih =>
      simp only [List.foldr_cons, pyWordsStep]
      by_cases hc : isPySpace c = true
      · rw [if_pos hc]
        constructor
        · intro h; simp at h
        · intro w hw
          simp only at hw
          by_cases h1 : (t.foldr pyWordsStep ([], [])).1 = []
          · rw [if_pos h1] at hw
            exact ih.2 w hw
          · rw [if_neg h1] at hw
            rcases List.mem_cons.mp hw with rfl | hw'
            · exact ⟨h1, ih.1 h1⟩
            · exact ih.2 w hw'
      · rw [if_neg hc]
        constructor
        · intro _
          simp only [noWS, List.all_cons, Bool.and_eq_true, Bool.not_eq_true']
          constructor
          · simpa using hc
          · by_cases h1 : (t.foldr pyWordsStep ([], [])).1 = []
            · simp [h1, noWS]
            · simpa [noWS] using ih.1 h1
        · exact ih.2

/-- A non-empty whitespace-free string is its own single word. -/
theorem pyWords_of_noWS (w : Str) (hne : w ≠ []) (hws : noWS w = true) :
    pyWords w = [w] := by
  unfold pyWords
  suffices h : w.foldr pyWordsStep ([], []) = (w, []) by
    rw [h]; simp [pyWordsFinish, hne]
  induction w with
  | nil => simp at hne
  | cons c t ih =>
      simp only [noWS, List.all_cons, Bool.and_eq_true, Bool.not_eq_true'] at hws
      by_cases ht : t = []
      · subst ht
        simp [pyWordsStep, hws.1]
      · rw [List.foldr_cons, ih ht (by simpa [noWS] using hws.2)]
        simp [pyWordsStep, hws.1]

-- Lemmas about `natFoldMax`.

theorem natFoldMax_mem (xs : List Nat) (h : xs ≠ []) : natFoldMax xs ∈ xs := by
  induction xs with
  | nil => exact absurd rfl h
  | cons a t ih =>
      by_cases ht : t = []
      · subst ht
        simp [natFoldMax]

      · show max a (natFoldMax t) ∈ a :: t
        rcases Nat.le_total (natFoldMax t) a with hle | hle
        · rw [max_eq_left hle]
          exact List.mem_cons_self _ _
        · rw [max_eq_right hle]
          exact List.mem_cons_of_mem _ (ih ht)

theorem le_natFoldMax (xs : List Nat) (x : Nat) (hx : x ∈ xs) :
    x ≤ natFoldMax xs := by
  induction xs with
  | nil => simp at hx
  | cons a t ih =>
      rcases List.mem_cons.mp hx with rfl | hx'
      · exact le_max_left _ _
      · exact le_trans (ih hx') (le_max_right _ _)

/-- In an id-sorted list, the rows with id above the maximum id of the first
`k` rows are exactly the rows after the first `k`. -/
theorem filter_gt_max_take (L : List ConvMsg) (k : Nat)
    (hs : L.Pairwise (fun a b => a.id < b.id)) (hk : k ≤ L.length)
    (hkpos : 0 < k) :
    L.filter
      (fun m => decide (natFoldMax ((L.take k).map (fun m => m.id)) < m.id)) =
      L.drop k := by
  have htake_len : (L.take k).length = k := by
    rw [List.length_take]; omega
  have htake_ne : (L.take k).map (fun m => m.id) ≠ [] := by
    intro he
    have hlen := congrArg List.length he
    simp only [List.length_map, htake_len, List.length_nil] at hlen
    omega
  set M := natFoldMax ((L.take k).map (fun m => m.id)) with hM
  have hmem : M ∈ (L.take k).map (fun m => m.id) := natFoldMax_mem _ htake_ne
  obtain ⟨a0, ha0, ha0id⟩ := List.mem_map.mp hmem
  have hcross : ∀ b ∈ L.drop k, M < b.id := by
    intro b hb
    have hsplit := List.pairwise_append.mp
      (show (L.take k ++ L.drop k).Pairwise (fun a b => a.id < b.id) by
        rw [List.take_append_drop]; exact hs)
    have := hsplit.2.2 a0 ha0 b hb
    omega
  have hle : ∀ a ∈ L.take k, a.id ≤ M := by
    intro a ha
    exact le_natFoldMax _ _ (List.mem_map.mpr ⟨a, ha, rfl⟩)
  conv_lhs => rw [← List.take_append_drop k L]
  rw [List.filter_append]
  have h1 : (L.take k).filter (fun m => decide (M < m.id)) = [] := by
    rw [List.filter_eq_nil]
    intro a ha
    simp only [decide_eq_true_eq, not_lt]
    exact hle a ha
  have h2 : (L.drop k).filter (fun m => decide (M < m.id)) = L.drop k := by
    rw [List.filter_eq_self]
    intro a ha
    simp only [decide_eq_true_eq]
    exact hcross a ha
  rw [h1, h2, List.nil_append]

/-- Replacing a user's summary rows leaves exactly one row for that user. -/
theorem summaries_filter_after_save (rows : List ConvSummary) (u : Str)
    (row : ConvSummary) (hrow : row.user_id = u) :
    ((rows.filter (fun s => !(decide (s.user_id = u)))) ++ [row]).filter
      (fun s => decide (s.user_id = u)) = [row] := by
  rw [List.filter_append]
  have h1 : (rows.filter (fun s => !(decide (s.user_id = u)))).filter
      (fun s => decide (s.user_id = u)) = [] := by
    rw [List.filter_eq_nil]
    intro a ha
    have := List.of_mem_filter ha
    simp only [Bool.not_eq_true', decide_eq_false_iff_not] at this
    simp only [decide_eq_true_eq]
    exact this
  rw [h1, List.nil_append]
  simp [hrow]

/-- After `save_conversation_summary` the user's high-water mark is the
stored mark: the previous one when the argument was `0`, else the argument. -/
theorem save_summary_summaries (db : ConvDB) (u text : Str) (c mark0 : Nat) :
    (save_conversation_summary db u text c mark0).summaries =
      (db.summaries.filter (fun s => !(decide (s.user_id = u)))) ++
      [{ user_id := u, summary_text := text,
         message_count :=
           ((db.summaries.filter (fun s => decide (s.user_id = u))).map
             (fun s => s.message_count)).sum + c,
         last_summarized_message_id :=
           if mark0 = 0 then lastSummarizedId db u else mark0 }] := rfl

theorem lastSummarizedId_save (db : ConvDB) (u text : Str) (c mark0 : Nat) :
    lastSummarizedId (save_conversation_summary db u text c mark0) u =
      (if mark0 = 0 then lastSummarizedId db u else mark0) := by
  show natFoldMax _ = _
  rw [save_summary_summaries, summaries_filter_after_save db.summaries u _ rfl]
  simp [natFoldMax]

/-- `save_conversation_summary` does not touch the `conversations` table. -/
theorem save_summary_conversations (db : ConvDB) (u text : Str) (c m : Nat) :
    (save_conversation_summary db u text c m).conversations =
      db.conversations := rfl

-- Helper lemmas about deactivation.

/-- After deactivating user `u`'s rows, no row of `u` is active. -/
theorem filter_deactivate_self (l : List LCRow) (u : Str) :
    (l.map (deactivateRow u)).filter
      (fun r => decide (r.user_id = u) && r.is_active) = [] := by
  induction l with
  | nil => rfl
  | cons r t ih =>
      simp only [List.map_cons]
      by_cases hc : (decide (r.user_id = u) && r.is_active) = true
      · rw [show deactivateRow u r = { r with is_active := false } from by
          unfold deactivateRow; rw [if_pos hc]]
        rw [List.filter_cons_of_neg (by simp)]
        exact ih
      · rw [show deactivateRow u r = r from by
          unfold deactivateRow; rw [if_neg hc]]
        rw [List.filter_cons_of_neg (by simpa using hc)]
        exact ih

/-- Deactivating user `u`'s rows does not change any other user's rows. -/
theorem filter_deactivate_other (l : List LCRow) (u v : Str) (hne : v ≠ u) :
    (l.map (deactivateRow u)).filter
      (fun r => decide (r.user_id = v) && r.is_active) =
    l.filter (fun r => decide (r.user_id = v) && r.is_active) := by
  induction l with
  | nil => rfl
  | cons r t ih =>
      simp only [List.map_cons]
      by_cases hc : (decide (r.user_id = u) && r.is_active) = true
      · have hru : r.user_id = u := by
          simp only [Bool.and_eq_true, decide_eq_true_eq] at hc
          exact hc.1
        have hrv : r.user_id ≠ v := by
          rw [hru]; exact fun h => hne h.symm
        rw [show deactivateRow u r = { r with is_active := false } from by
          unfold deactivateRow; rw [if_pos hc]]
        rw [List.filter_cons, List.filter_cons, if_neg (by simp),
          if_neg (by simp [hrv])]
        exact ih
      · rw [show deactivateRow u r = r from by
          unfold deactivateRow; rw [if_neg hc]]
        rw [List.filter_cons, List.filter_cons]
        by_cases hv : (decide (r.user_id = v) && r.is_active) = true
        · rw [if_pos hv, if_pos hv, ih]
        · rw [if_neg (by simpa using hv), if_neg (by simpa using hv)]
          exact ih

/-- `any` is false exactly when the corresponding filter is empty. -/
theorem any_eq_false_of_filter_nil (l : List LCRow) (p : LCRow → Bool)
    (h : l.filter p = []) : l.any p = false := by
  induction l with
  | nil => rfl
  | cons r t ih =>
      by_cases hc : p r = true
      · rw [List.filter_cons_of_pos hc] at h
        exact absurd h (by simp)
      · rw [List.filter_cons_of_neg (by simpa using hc)] at h
        simp only [List.any_cons, ih h, Bool.or_false]
        simpa using hc

-- Helper lemmas for the referral flow.

theorem freshCode_ne_nil (hash : Nat → Str) (db : RDB) :
    ∀ fuel i, freshCode hash db fuel i ≠ [] := by
  intro fuel
  induction fuel with
  | zero => intro i; simp [freshCode, S]
  | succ n ih =>
      intro i
      unfold freshCode
      by_cases hc : codeExists db (S ("REF_") ++ hash i) = true
      · rw [if_pos hc]; exact ih (i + 1)
      · rw [if_neg hc]; simp [S]

/-- The generated code is never the empty string (given the database
invariant that stored codes are non-empty `REF_…` strings). -/
theorem gen_code_ne_nil (hash : Nat → Str) (db : RDB) (u : Str)
    (hcodes : ∀ r ∈ db.referrals, r.code ≠ []) :
    (generate_referral_code hash db u).1 ≠ [] := by
  unfold generate_referral_code
  cases hfind : db.referrals.find? (fun r => decide (r.referrer_id = u)) with
  | some r =>
      simp only [hfind]
      exact hcodes r (List.mem_of_find?_eq_some hfind)
  | none =>
      simp only [hfind]
      exact freshCode_ne_nil hash db _ 0

/-- After `generate_referral_code`, the user has an unsent row (assuming no
prior sent row). -/
theorem gen_has_unsent_row (hash : Nat → Str) (db : RDB) (u : Str)
    (hunsent : ∀ r ∈ db.referrals, r.referrer_id = u → r.sent = false) :
    (generate_referral_code hash db u).2.referrals.any
      (fun r => decide (r.referrer_id = u) && !r.sent) = true := by
  unfold generate_referral_code
  cases hfind : db.referrals.find? (fun r => decide (r.referrer_id = u)) with
  | some r =>
      simp only [hfind]
      have hmem := List.mem_of_find?_eq_some hfind
      have hpred := List.find?_some hfind
      simp only [decide_eq_true_eq] at hpred
      refine List.any_eq_true.mpr ⟨r, hmem, ?_⟩
      simp [hpred, hunsent r hmem hpred]
  | none =>
      simp only [hfind]
      refine List.any_eq_true.mpr ⟨_, List.mem_append_right _ (List.mem_cons_self _ _), ?_⟩
      simp

/-- After `mark`, the user has no unsent row left. -/
theorem no_unsent_after_mark (l : List Referral) (u : Str) :
    (l.map (setSent true u)).any
      (fun r => decide (r.referrer_id = u) && !r.sent) = false := by
  induction l with
  | nil => rfl
  | cons r t ih =>
      simp only [List.map_cons, List.any_cons, ih, Bool.or_false]
      unfold setSent
      by_cases hc : decide (r.referrer_id = u) = true
      · rw [if_pos hc]; simp
      · rw [if_neg hc]
        have hfc : decide (r.referrer_id = u) = false := by simpa using hc
        simp [hfc]

/-- After `unmark`, every row of the user is unsent. -/
theorem all_unsent_after_unmark (l : List Referral) (u : Str) :
    ∀ r ∈ l.map (setSent false u), r.referrer_id = u → r.sent = false := by
  intro r hr hru
  obtain ⟨r0, hr0, hr0eq⟩ := List.mem_map.mp hr
  unfold setSent at hr0eq
  by_cases hc : decide (r0.referrer_id = u) = true
  · rw [if_pos hc] at hr0eq
    rw [← hr0eq]
  · rw [if_neg hc] at hr0eq
    subst hr0eq
    simp only [decide_eq_true_eq] at hc
    exact absurd hru hc

/-- `setSent` never touches the `referrer_id` or `code` fields. -/
theorem setSent_fields (b : Bool) (u : Str) (r : Referral) :
    (setSent b u r).referrer_id = r.referrer_id ∧
    (setSent b u r).code = r.code := by
  unfold setSent
  by_cases hc : decide (r.referrer_id = u) = true
  · rw [if_pos hc]; exact ⟨rfl, rfl⟩
  · rw [if_neg hc]; exact ⟨rfl, rfl⟩

/-- A user who has a row still has one after `setSent`. -/
theorem any_referrer_map_setSent (l : List Referral) (b : Bool) (u : Str)
    (h : l.any (fun r => decide (r.referrer_id = u)) = true) :
    (l.map (setSent b u)).any (fun r => decide (r.referrer_id = u)) = true := by
  obtain ⟨r, hr, hpr⟩ := List.any_eq_true.mp h
  refine List.any_eq_true.mpr ⟨setSent b u r, List.mem_map.mpr ⟨r, hr, rfl⟩, ?_⟩
  rw [(setSent_fields b u r).1]
  exact hpr

/-- After `generate_referral_code`, the user has a row. -/
theorem gen_has_row (hash : Nat → Str) (db : RDB) (u : Str) :
    (generate_referral_code hash db u).2.referrals.any
      (fun r => decide (r.referrer_id = u)) = true := by
  unfold generate_referral_code
  cases hfind : db.referrals.find? (fun r => decide (r.referrer_id = u)) with
  | some r =>
      simp only [hfind]
      have hpred := List.find?_some hfind
      exact List.any_eq_true.mpr ⟨r, List.mem_of_find?_eq_some hfind, hpred⟩
  | none =>
      simp only [hfind]
      refine List.any_eq_true.mpr ⟨_, List.mem_append_right _ (List.mem_cons_self _ _), ?_⟩
      simp

/-- A user with a row that is all-unsent admits a successful `mark`. -/
theorem mark_succeeds_of_row_unsent (db : RDB) (u : Str)
    (hrow : db.referrals.any (fun r => decide (r.referrer_id = u)) = true)
    (hunsent : ∀ r ∈ db.referrals, r.referrer_id = u → r.sent = false) :
    (mark_referral_code_as_sent db u).1 = true := by
  obtain ⟨r, hr, hpr⟩ := List.any_eq_true.mp hrow
  simp only [decide_eq_true_eq] at hpr
  unfold mark_referral_code_as_sent
  rw [if_pos (List.any_eq_true.mpr ⟨r, hr, by
    simp [hpr, hunsent r hr hpr]⟩)]

/-- Marking with an unsent row present: success, flag set on every row of
the user. -/
theorem mark_of_any_true (db : RDB) (u : Str)
    (h : db.referrals.any (fun r => decide (r.referrer_id = u) && !r.sent) = true) :
    mark_referral_code_as_sent db u =
      (true, { referrals := db.referrals.map (setSent true u) }) := by
  unfold mark_referral_code_as_sent
  rw [if_pos h]

/-- Marking with no unsent row: failure, no state change. -/
theorem mark_of_any_false (db : RDB) (u : Str)
    (h : db.referrals.any (fun r => decide (r.referrer_id = u) && !r.sent) = false) :
    mark_referral_code_as_sent db u = (false, db) := by
  unfold mark_referral_code_as_sent
  rw [if_neg (by simp [h])]

-- Helper lemmas for the rebuild loop.

theorem elemB_cons (x : Nat) (l : List Nat) (e : Nat) :
    elemB (x :: l) e = (decide (x = e) || elemB l e) := by
  simp [elemB]

/-- The changed set after one loop step. -/
theorem step4Chunk_changed_eq (u : Nat → Bool) (stored : List StoredChunk)
    (st : RebuildState) (c : NewChunk) :
    (step4Chunk u stored st c).changed =
      if ((u c.entry_id && !elemB st.changed c.entry_id)
          && !reuseOK stored c) = true
      then c.entry_id :: st.changed else st.changed := by
  unfold step4Chunk
  by_cases h1 : (u c.entry_id && !elemB st.changed c.entry_id) = true
  · by_cases h2 : reuseOK stored c = true
    · rw [if_pos h1, if_pos h2, if_neg (by simp [h2])]
    · have h2f : reuseOK stored c = false := by simpa using h2
      rw [if_pos h1, if_neg h2, if_pos (by simp [h1, h2f])]
  · have h1f : (u c.entry_id && !elemB st.changed c.entry_id) = false := by
      simpa using h1
    rw [if_neg h1, if_neg (by simp [h1f])]

/-- The embed-text accumulator after one loop step. -/
theorem step4Chunk_embTexts_eq (u : Nat → Bool) (stored : List StoredChunk)
    (st : RebuildState) (c : NewChunk) :
    (step4Chunk u stored st c).embTexts =
      if ((u c.entry_id && !elemB st.changed c.entry_id)
          && reuseOK stored c) = true
      then st.embTexts else st.embTexts ++ [c.text] := by
  unfold step4Chunk
  by_cases h1 : (u c.entry_id && !elemB st.changed c.entry_id) = true
  · by_cases h2 : reuseOK stored c = true
    · rw [if_pos h1, if_pos h2, if_pos (by simp [h1, h2])]
    · have h2f : reuseOK stored c = false := by simpa using h2
      rw [if_pos h1, if_neg h2, if_neg (by simp [h2f])]
  · have h1f : (u c.entry_id && !elemB st.changed c.entry_id) = false := by
      simpa using h1
    rw [if_neg h1, if_neg (by simp [h1f])]

/-- The embedding accumulator after one loop step. -/
theorem step4Chunk_embAcc_eq (u : Nat → Bool) (stored : List StoredChunk)
    (st : RebuildState) (c : NewChunk) :
    (step4Chunk u stored st c).embAcc =
      if ((u c.entry_id && !elemB st.changed c.entry_id)
          && reuseOK stored c) = true
      then st.embAcc ++ [matchedEmb stored c] else st.embAcc ++ [none] := by
  unfold step4Chunk
  by_cases h1 : (u c.entry_id && !elemB st.changed c.entry_id) = true
  · by_cases h2 : reuseOK stored c = true
    · rw [if_pos h1, if_pos h2, if_pos (by simp [h1, h2])]
    · have h2f : reuseOK stored c = false := by simpa using h2
      rw [if_pos h1, if_neg h2, if_neg (by simp [h2f])]
  · have h1f : (u c.entry_id && !elemB st.changed c.entry_id) = false := by
      simpa using h1
    rw [if_neg h1, if_neg (by simp [h1f])]

/-- One loop step never removes an id from the changed set. -/
theorem step4Chunk_changed_mono (u : Nat → Bool) (stored : List StoredChunk)
    (st : RebuildState) (c : NewChunk) (e : Nat)
    (h : elemB st.changed e = true) :
    elemB (step4Chunk u stored st c).changed e = true := by
  rw [step4Chunk_changed_eq]
  by_cases hc : ((u c.entry_id && !elemB st.changed c.entry_id)
      && !reuseOK stored c) = true
  · rw [if_pos hc, elemB_cons, h]
    simp
  · rw [if_neg hc]
    exact h

/-- The loop never removes an id from the changed set. -/
theorem step4_changed_mono (u : Nat → Bool) (stored : List StoredChunk) :
    ∀ (chunks : List NewChunk) (st : RebuildState) (e : Nat),
      elemB st.changed e = true →
      elemB ((chunks.foldl (step4Chunk u stored) st)).changed e = true := by
  intro chunks
  induction chunks with
  | nil => intro st e h; exact h
  | cons c rest ih =>
      intro st e h
      rw [List.foldl_cons]
      exact ih _ e (step4Chunk_changed_mono u stored st c e h)

/-- Exactly when an entry ends up in the changed set: it was there at loop
entry, or it is a step-3-unchanged entry one of whose chunks lacks a truthy
position-matched stored embedding. -/
theorem step4_changed_elem (u : Nat → Bool) (stored : List StoredChunk) :
    ∀ (chunks : List NewChunk) (st : RebuildState) (e : Nat),
      elemB ((chunks.foldl (step4Chunk u stored) st)).changed e =
        (elemB st.changed e ||
         (u e && chunks.any
            (fun c => decide (c.entry_id = e) && !reuseOK stored c))) := by
  intro chunks
  induction chunks with
  | nil => intro st e; simp
  | cons c rest ih =>
      intro st e
      rw [List.foldl_cons, ih, List.any_cons, step4Chunk_changed_eq]
      by_cases h1 : (u c.entry_id && !elemB st.changed c.entry_id) = true
      · have h1x := h1
        rw [Bool.and_eq_true] at h1x
        have hu : u c.entry_id = true := h1x.1
        have hne : elemB st.changed c.entry_id = false := by
          simpa using h1x.2
        by_cases h2 : reuseOK stored c = true
        · rw [if_neg (by simp [h2])]
          simp [h2]
        · have h2f : reuseOK stored c = false := by simpa using h2
          rw [if_pos (by simp [h1, h2f]), elemB_cons]
          by_cases h3 : c.entry_id = e
          · subst h3
            simp [hu, hne, h2f]
          · have hd : decide (c.entry_id = e) = false := by simp [h3]
            simp [hd]
      · have h1f : (u c.entry_id && !elemB st.changed c.entry_id) = false := by
          simpa using h1
        rw [if_neg (by simp [h1f])]
        by_cases h3 : c.entry_id = e
        · subst h3
          by_cases hu : u c.entry_id = true
          · have helem : elemB st.changed c.entry_id = true := by
              cases hel : elemB st.changed c.entry_id
              · rw [hu, hel] at h1f
                simp at h1f
              · rfl
            simp [helem]
          · have hu2 : u c.entry_id = false := by simpa using hu
            simp [hu2]
        · have hd : decide (c.entry_id = e) = false := by simp [h3]
          simp [hd]

/-- Every text accumulated for embedding belongs to a chunk whose entry is
initially changed or ends up reclassified. -/
theorem step4_embTexts_mem (u : Nat → Bool) (stored : List StoredChunk) :
    ∀ (chunks : List NewChunk) (st : RebuildState) (t : Str),
      t ∈ ((chunks.foldl (step4Chunk u stored) st)).embTexts →
      t ∈ st.embTexts ∨ ∃ c, c ∈ chunks ∧ t = c.text ∧
        (!u c.entry_id ||
         elemB ((chunks.foldl (step4Chunk u stored) st)).changed c.entry_id)
          = true := by
  intro chunks
  induction chunks with
  | nil => intro st t h; exact Or.inl h
  | cons c rest ih =>
      intro st t h
      rw [List.foldl_cons] at h
      rcases ih (step4Chunk u stored st c) t h with hin | ⟨c2, hc2, ht2, hch2⟩
      · rw [step4Chunk_embTexts_eq] at hin
        by_cases hcnd : ((u c.entry_id && !elemB st.changed c.entry_id)
            && reuseOK stored c) = true
        · rw [if_pos hcnd] at hin
          exact Or.inl hin
        · rw [if_neg hcnd] at hin
          rcases List.mem_append.mp hin with h3 | h3
          · exact Or.inl h3
          · right
            refine ⟨c, List.mem_cons_self _ _, List.mem_singleton.mp h3, ?_⟩
            rw [List.foldl_cons]
            by_cases hu : u c.entry_id = true
            · have hst1 : elemB (step4Chunk u stored st c).changed c.entry_id
                  = true := by
                rw [step4Chunk_changed_eq]
                by_cases hcc : ((u c.entry_id && !elemB st.changed c.entry_id)
                    && !reuseOK stored c) = true
                · rw [if_pos hcc, elemB_cons]
                  simp
                · rw [if_neg hcc]
                  cases hel : elemB st.changed c.entry_id
                  · exfalso
                    cases hro : reuseOK stored c
                    · exact hcc (by simp [hu, hel, hro])
                    · exact hcnd (by simp [hu, hel, hro])
                  · rfl
              have hfin := step4_changed_mono u stored rest
                (step4Chunk u stored st c) c.entry_id hst1
              rw [hfin]
              simp
            · have hu2 : u c.entry_id = false := by simpa using hu
              simp [hu2]
      · right
        refine ⟨c2, List.mem_cons_of_mem _ hc2, ht2, ?_⟩
        rw [List.foldl_cons]
        exact hch2

/-- When every chunk of the run is reusable, the loop reuses every stored
embedding position-matched, reclassifies nothing, and embeds nothing. -/
theorem step4_all_reuse (u : Nat → Bool) (stored : List StoredChunk) :
    ∀ (chunks : List NewChunk) (st : RebuildState),
      (∀ c ∈ chunks, u c.entry_id = true ∧ reuseOK stored c = true ∧
        elemB st.changed c.entry_id = false) →
      chunks.foldl (step4Chunk u stored) st =
        { changed := st.changed,
          embAcc := st.embAcc ++ chunks.map (matchedEmb stored),
          embTexts := st.embTexts } := by
  intro chunks
  induction chunks with
  | nil => intro st h; cases st; simp
  | cons c rest ih =>
      intro st h
      obtain ⟨hu, hr, he⟩ := h c (List.mem_cons_self _ _)
      have hstep : step4Chunk u stored st c =
          { changed := st.changed,
            embAcc := st.embAcc ++ [matchedEmb stored c],
            embTexts := st.embTexts } := by
        unfold step4Chunk
        rw [if_pos (by simp [hu, he]), if_pos hr]
      rw [List.foldl_cons, hstep]
      have hrest := ih
        { changed := st.changed,
          embAcc := st.embAcc ++ [matchedEmb stored c],
          embTexts := st.embTexts }
        (fun c2 hc2 => ⟨(h c2 (List.mem_cons_of_mem _ hc2)).1,
          (h c2 (List.mem_cons_of_mem _ hc2)).2.1,
          (h c2 (List.mem_cons_of_mem _ hc2)).2.2⟩)
      rw [hrest]
      simp

/-- Filling placeholders in a list with no placeholders returns the stored
values unchanged, whatever the batch returned. -/
theorem fillAux_all_some (l : List (Option (List Int)))
    (news : List (List Int)) (h : ∀ o ∈ l, o ≠ none) :
    fillAux l news = l.map (fun o => o.getD []) := by
  induction l with
  | nil => rfl
  | cons o t ih =>
      cases o with
      | none => exact absurd rfl (h none (List.mem_cons_self _ _))
      | some e =>
          rw [show fillAux (some e :: t) news = e :: fillAux t news from rfl]
          rw [ih (fun o2 ho2 => h o2 (List.mem_cons_of_mem _ ho2))]
          rfl

-- Helper lemmas for the chunker.

/-- Taking no more than the `takeWhile` prefix takes from that prefix. -/
theorem take_le_takeWhile (p : Char → Bool) (l : List Char) (k : Nat)
    (hk : k ≤ (l.takeWhile p).length) :
    l.take k = (l.takeWhile p).take k := by
  have h := @List.take_append_eq_append_take Char
    (l.takeWhile p) (l.dropWhile p) k
  rw [List.takeWhile_append_dropWhile p l] at h
  rw [h, Nat.sub_eq_zero_of_le hk]
  simp

/-- Taking exactly the `takeWhile` prefix length yields that prefix. -/
theorem take_length_takeWhile (p : Char → Bool) (l : List Char) :
    l.take (l.takeWhile p).length = l.takeWhile p := by
  have h := List.take_left (l.takeWhile p) (l.dropWhile p)
  rw [List.takeWhile_append_dropWhile p l] at h
  exact h

/-- Splitting at a non-empty all-whitespace run concatenates word lists. -/
theorem pyWords_append_ws_run (a t b : Str) (hne : t ≠ [])
    (hws : ∀ c ∈ t, isPySpace c = true) :
    pyWords (a ++ (t ++ b)) = pyWords a ++ pyWords b := by
  cases t with
  | nil => exact absurd rfl hne
  | cons s t2 =>
      rw [show a ++ (s :: t2 ++ b) = a ++ s :: (t2 ++ b) from rfl]
      rw [pyWords_append_ws a (t2 ++ b) s (hws s (List.mem_cons_self _ _))]
      rw [pyWords_all_ws_append t2
        (fun c hc => hws c (List.mem_cons_of_mem _ hc)) b]

/-- A paragraph-separator match is a non-empty all-whitespace prefix. -/
theorem parSepLen_take_ws (l : Str) (n : Nat) (h : parSepLen l = some n) :
    l.take n ≠ [] ∧ ∀ x ∈ l.take n, isPySpace x = true := by
  cases l with
  | nil => simp [parSepLen] at h
  | cons c rest =>
      have h2 : (if c = '\n' then
          (if (lastNLTail rest).length = 0 then none
           else some ((lastNLTail rest).length + 1))
          else (none : Option Nat)) = some n := h
      by_cases hc : c = '\n'
      · rw [if_pos hc] at h2
        by_cases hz : (lastNLTail rest).length = 0
        · rw [if_pos hz] at h2
          exact absurd h2 (by simp)
        · rw [if_neg hz] at h2
          have hn := Option.some.inj h2
          subst hn
          rw [List.take_succ_cons]
          refine ⟨by simp, ?_⟩
          intro x hx
          rcases List.mem_cons.mp hx with rfl | hx2
          · rw [hc]; decide
          · have hlen : (lastNLTail rest).length ≤
                (rest.takeWhile isPySpace).length := by
              have := length_dropWhile_le (fun x => decide (x ≠ '\n'))
                (rest.takeWhile isPySpace).reverse
              simpa [lastNLTail] using this
            have htake : rest.take (lastNLTail rest).length =
                (rest.takeWhile isPySpace).take (lastNLTail rest).length :=
              take_le_takeWhile isPySpace rest (lastNLTail rest).length hlen
            rw [htake] at hx2
            exact List.mem_takeWhile_imp
              ((List.take_sublist _ _).subset hx2)
      · rw [if_neg hc] at h2
        exact absurd h2 (by simp)

theorem splitParasAux_succ_some (f : Nat) (acc l : Str) (n : Nat)
    (h : parSepLen l = some n) :
    splitParasAux (f + 1) acc l =
      acc.reverse :: splitParasAux f [] (l.drop n) := by
  have he : splitParasAux (f + 1) acc l =
      splitParasStep (splitParasAux f) acc l := rfl
  rw [he]
  unfold splitParasStep
  rw [h]

theorem splitParasAux_succ_none_nil (f : Nat) (acc : Str) :
    splitParasAux (f + 1) acc [] = [acc.reverse] := rfl

theorem splitParasAux_succ_none_cons (f : Nat) (acc : Str) (c : Char)
    (rest : Str) (h : parSepLen (c :: rest) = none) :
    splitParasAux (f + 1) acc (c :: rest) =
      splitParasAux f (c :: acc) rest := by
  have he : splitParasAux (f + 1) acc (c :: rest) =
      splitParasStep (splitParasAux f) acc (c :: rest) := rfl
  rw [he]
  unfold splitParasStep
  rw [h]

/-- Every word of every piece of the paragraph scan is a word of the input
(separators are whitespace, so they only cut between words). -/
theorem splitParasAux_words_sound :
    ∀ (fuel : Nat) (acc l p w : Str),
      p ∈ splitParasAux fuel acc l → w ∈ pyWords p →
      w ∈ pyWords (acc.reverse ++ l) := by
  intro fuel
  induction fuel with
  | zero =>
      intro acc l p w hp hw
      have he : splitParasAux 0 acc l = [acc.reverse ++ l] := rfl
      rw [he, List.mem_singleton] at hp
      subst hp
      exact hw
  | succ f ih =>
      intro acc l p w hp hw
      cases hsep : parSepLen l with
      | some n =>
          rw [splitParasAux_succ_some f acc l n hsep] at hp
          obtain ⟨hne, hws⟩ := parSepLen_take_ws l n hsep
          rw [show acc.reverse ++ l =
              acc.reverse ++ (l.take n ++ l.drop n) by
            rw [List.take_append_drop]]
          rw [pyWords_append_ws_run _ _ _ hne hws]
          rcases List.mem_cons.mp hp with rfl | hp2
          · exact List.mem_append_left _ hw
          · have h2 := ih [] (l.drop n) p w hp2 hw
            exact List.mem_append_right _ (by simpa using h2)
      | none =>
          cases l with
          | nil =>
              rw [splitParasAux_succ_none_nil f acc] at hp
              rw [List.mem_singleton] at hp
              subst hp
              simpa using hw
          | cons c rest =>
              rw [splitParasAux_succ_none_cons f acc c rest hsep] at hp
              have h2 := ih (c :: acc) rest p w hp hw
              rw [List.reverse_cons, List.append_assoc] at h2
              simpa using h2

theorem splitParas_words_sound (t p w : Str) (hp : p ∈ splitParas t)
    (hw : w ∈ pyWords p) : w ∈ pyWords t := by
  have h := splitParasAux_words_sound (t.length + 1) [] t p w hp hw
  simpa using h

theorem splitSentencesAux_succ_nil (f : Nat) (prev : Option Char)
    (acc : Str) : splitSentencesAux (f + 1) prev acc [] = [acc.reverse] :=
  rfl

theorem splitSentencesAux_succ_sep (f : Nat) (prev : Option Char)
    (acc : Str) (c : Char) (rest : Str)
    (h : (isPySpace c && isSentPunct prev) = true) :
    splitSentencesAux (f + 1) prev acc (c :: rest) =
      acc.reverse :: splitSentencesAux f (some ' ') []
        ((c :: rest).drop ((c :: rest).takeWhile isPySpace).length) := by
  have he : splitSentencesAux (f + 1) prev acc (c :: rest) =
      (if isPySpace c && isSentPunct prev then
        acc.reverse :: splitSentencesAux f (some ' ') []
          ((c :: rest).drop ((c :: rest).takeWhile isPySpace).length)
      else splitSentencesAux f (some c) (c :: acc) rest) := rfl
  rw [he]
  rw [if_pos h]

theorem splitSentencesAux_succ_nosep (f : Nat) (prev : Option Char)
    (acc : Str) (c : Char) (rest : Str)
    (h : (isPySpace c && isSentPunct prev) = false) :
    splitSentencesAux (f + 1) prev acc (c :: rest) =
      splitSentencesAux f (some c) (c :: acc) rest := by
  have he : splitSentencesAux (f + 1) prev acc (c :: rest) =
      (if isPySpace c && isSentPunct prev then
        acc.reverse :: splitSentencesAux f (some ' ') []
          ((c :: rest).drop ((c :: rest).takeWhile isPySpace).length)
      else splitSentencesAux f (some c) (c :: acc) rest) := rfl
  rw [he, if_neg (by simp [h])]

/-- Every word of every piece of the sentence scan is a word of the input. -/
theorem splitSentencesAux_words_sound :
    ∀ (fuel : Nat) (prev : Option Char) (acc l p w : Str),
      p ∈ splitSentencesAux fuel prev acc l → w ∈ pyWords p →
      w ∈ pyWords (acc.reverse ++ l) := by
  intro fuel
  induction fuel with
  | zero =>
      intro prev acc l p w hp hw
      have he : splitSentencesAux 0 prev acc l = [acc.reverse ++ l] := rfl
      rw [he, List.mem_singleton] at hp
      subst hp
      exact hw
  | succ f ih =>
      intro prev acc l p w hp hw
      cases l with
      | nil =>
          rw [splitSentencesAux_succ_nil f prev acc] at hp
          rw [List.mem_singleton] at hp
          subst hp
          simpa using hw
      | cons c rest =>
          by_cases hsep : (isPySpace c && isSentPunct prev) = true
          · rw [splitSentencesAux_succ_sep f prev acc c rest hsep] at hp
            have hcws : isPySpace c = true := (Bool.and_eq_true ..).mp hsep |>.1
            have hne : (c :: rest).take
                ((c :: rest).takeWhile isPySpace).length ≠ [] := by
              rw [List.takeWhile_cons_of_pos hcws, List.length_cons,
                List.take_succ_cons]
              simp
            have hws : ∀ x ∈ (c :: rest).take
                ((c :: rest).takeWhile isPySpace).length,
                isPySpace x = true := by
              intro x hx
              rw [take_length_takeWhile isPySpace (c :: rest)] at hx
              exact List.mem_takeWhile_imp hx
            rw [show acc.reverse ++ (c :: rest) =
                acc.reverse ++
                  ((c :: rest).take ((c :: rest).takeWhile isPySpace).length
                    ++ (c :: rest).drop
                      ((c :: rest).takeWhile isPySpace).length) by
              rw [List.take_append_drop]]
            rw [pyWords_append_ws_run _ _ _ hne hws]
            rcases List.mem_cons.mp hp with rfl | hp2
            · exact List.mem_append_left _ hw
            · have h2 := ih (some ' ') []
                ((c :: rest).drop ((c :: rest).takeWhile isPySpace).length)
                p w hp2 hw
              exact List.mem_append_right _ (by simpa using h2)
          · rw [splitSentencesAux_succ_nosep f prev acc c rest
              (by simpa using hsep)] at hp
            have h2 := ih (some c) (c :: acc) rest p w hp hw
            rw [List.reverse_cons, List.append_assoc] at h2
            simpa using h2

theorem splitSentences_words_sound (t p w : Str) (hp : p ∈ splitSentences t)
    (hw : w ∈ pyWords p) : w ∈ pyWords t := by
  have h := splitSentencesAux_words_sound (t.length + 1) none [] t p w hp hw
  simpa using h

theorem appendCur_ok (maxChars : Nat) (st : List Str × Str)
    (h : stOK maxChars st) :
    ∀ c ∈ appendCur st, c.length ≤ maxChars ∨ noWS c = true := by
  intro c hc
  unfold appendCur at hc
  by_cases he : st.2.isEmpty = true
  · rw [if_pos he] at hc
    exact h.1 c hc
  · rw [if_neg he] at hc
    rcases List.mem_append.mp hc with h1 | h1
    · exact h.1 c h1
    · rw [List.mem_singleton.mp h1]
      exact h.2

theorem procWord_ok (maxChars : Nat) (st : List Str × Str) (w : Str)
    (hw : noWS w = true) (h : stOK maxChars st) :
    stOK maxChars (procWord maxChars st w) := by
  unfold procWord
  by_cases hc : st.2.length + w.length + 1 ≤ maxChars
  · rw [if_pos hc]
    refine ⟨h.1, Or.inl ?_⟩
    show (pyStrip (st.2 ++ ' ' :: w)).length ≤ maxChars
    have h1 := pyStrip_length_le (st.2 ++ ' ' :: w)
    rw [List.length_append, List.length_cons] at h1
    omega
  · rw [if_neg hc]
    exact ⟨appendCur_ok maxChars st h, Or.inr hw⟩

theorem foldl_procWord_ok (maxChars : Nat) (ws : List Str) :
    ∀ st, (∀ w ∈ ws, noWS w = true) → stOK maxChars st →
      stOK maxChars (ws.foldl (procWord maxChars) st) := by
  induction ws with
  | nil => intro st _ h; exact h
  | cons w rest ih =>
      intro st hws h
      rw [List.foldl_cons]
      exact ih _ (fun x hx => hws x (List.mem_cons_of_mem _ hx))
        (procWord_ok maxChars st w (hws w (List.mem_cons_self _ _)) h)

theorem procSentence_ok (maxChars : Nat) (st : List Str × Str) (s : Str)
    (h : stOK maxChars st) : stOK maxChars (procSentence maxChars st s) := by
  unfold procSentence
  by_cases hc : st.2.length + s.length + 1 ≤ maxChars
  · rw [if_pos hc]
    refine ⟨h.1, Or.inl ?_⟩
    show (pyStrip (st.2 ++ ' ' :: s)).length ≤ maxChars
    have h1 := pyStrip_length_le (st.2 ++ ' ' :: s)
    rw [List.length_append, List.length_cons] at h1
    omega
  · rw [if_neg hc]
    by_cases hl : maxChars < s.length
    · rw [if_pos hl]
      exact foldl_procWord_ok maxChars (pyWords s) _
        (fun w hw => (pyWords_mem_sound s w hw).2)
        ⟨appendCur_ok maxChars st h, Or.inl (by simp)⟩
    · rw [if_neg hl]
      refine ⟨appendCur_ok maxChars st h, Or.inl ?_⟩
      show s.length ≤ maxChars
      omega

theorem foldl_procSentence_ok (maxChars : Nat) (ss : List Str) :
    ∀ st, stOK maxChars st →
      stOK maxChars (ss.foldl (procSentence maxChars) st) := by
  induction ss with
  | nil => intro st h; exact h
  | cons s rest ih =>
      intro st h
      rw [List.foldl_cons]
      exact ih _ (procSentence_ok maxChars st s h)

theorem procPara_ok (maxChars : Nat) (st : List Str × Str) (p : Str)
    (h : stOK maxChars st) : stOK maxChars (procPara maxChars st p) := by
  unfold procPara
  by_cases h0 : (pyStrip p).isEmpty = true
  · rw [if_pos h0]
    exact h
  · rw [if_neg h0]
    by_cases hc : st.2.length + (pyStrip p).length + 2 ≤ maxChars
    · rw [if_pos hc]
      refine ⟨h.1, Or.inl ?_⟩
      show (pyStrip (st.2 ++ '\n' :: '\n' :: pyStrip p)).length ≤ maxChars
      have h1 := pyStrip_length_le (st.2 ++ '\n' :: '\n' :: pyStrip p)
      rw [List.length_append, List.length_cons, List.length_cons] at h1
      omega
    · rw [if_neg hc]
      by_cases hl : maxChars < (pyStrip p).length
      · rw [if_pos hl]
        exact foldl_procSentence_ok maxChars _ _
          ⟨appendCur_ok maxChars st h, Or.inl (by simp)⟩
      · rw [if_neg hl]
        refine ⟨appendCur_ok maxChars st h, Or.inl ?_⟩
        show (pyStrip p).length ≤ maxChars
        omega

theorem foldl_procPara_ok (maxChars : Nat) (ps : List Str) :
    ∀ st, stOK maxChars st →
      stOK maxChars (ps.foldl (procPara maxChars) st) := by
  induction ps with
  | nil => intro st h; exact h
  | cons p rest ih =>
      intro st h
      rw [List.foldl_cons]
      exact ih _ (procPara_ok maxChars st p h)

theorem appendCur_words (T : List Str) (st : List Str × Str)
    (h : stWordsOK T st) :
    ∀ c ∈ appendCur st, ∀ w ∈ pyWords c, w ∈ T := by
  intro c hc
  unfold appendCur at hc
  by_cases he : st.2.isEmpty = true
  · rw [if_pos he] at hc
    exact h.1 c hc
  · rw [if_neg he] at hc
    rcases List.mem_append.mp hc with h1 | h1
    · exact h.1 c h1
    · rw [List.mem_singleton.mp h1]
      exact h.2

theorem procWord_words (T : List Str) (maxChars : Nat)
    (st : List Str × Str) (w0 : Str)
    (hw0 : ∀ w ∈ pyWords w0, w ∈ T) (h : stWordsOK T st) :
    stWordsOK T (procWord maxChars st w0) := by
  unfold procWord
  by_cases hc : st.2.length + w0.length + 1 ≤ maxChars
  · rw [if_pos hc]
    refine ⟨h.1, ?_⟩
    intro w hw
    rw [pyWords_pyStrip, pyWords_append_ws _ _ ' ' (by decide)] at hw
    rcases List.mem_append.mp hw with h1 | h1
    · exact h.2 w h1
    · exact hw0 w h1
  · rw [if_neg hc]
    exact ⟨appendCur_words T st h, hw0⟩

theorem foldl_procWord_words (T : List Str) (maxChars : Nat)
    (ws : List Str) :
    ∀ st, (∀ w0 ∈ ws, ∀ w ∈ pyWords w0, w ∈ T) → stWordsOK T st →
      stWordsOK T (ws.foldl (procWord maxChars) st) := by
  induction ws with
  | nil => intro st _ h; exact h
  | cons w rest ih =>
      intro st hws h
      rw [List.foldl_cons]
      exact ih _ (fun x hx => hws x (List.mem_cons_of_mem _ hx))
        (procWord_words T maxChars st w (hws w (List.mem_cons_self _ _)) h)

theorem procSentence_words (T : List Str) (maxChars : Nat)
    (st : List Str × Str) (s : Str)
    (hs : ∀ w ∈ pyWords s, w ∈ T) (h : stWordsOK T st) :
    stWordsOK T (procSentence maxChars st s) := by
  unfold procSentence
  by_cases hc : st.2.length + s.length + 1 ≤ maxChars
  · rw [if_pos hc]
    refine ⟨h.1, ?_⟩
    intro w hw
    rw [pyWords_pyStrip, pyWords_append_ws _ _ ' ' (by decide)] at hw
    rcases List.mem_append.mp hw with h1 | h1
    · exact h.2 w h1
    · exact hs w h1
  · rw [if_neg hc]
    by_cases hl : maxChars < s.length
    · rw [if_pos hl]
      refine foldl_procWord_words T maxChars (pyWords s) _ ?_
        ⟨appendCur_words T st h, by simp [pyWords, pyWordsFinish]⟩
      intro w0 hw0 w hw
      obtain ⟨hne0, hws0⟩ := pyWords_mem_sound s w0 hw0
      rw [pyWords_of_noWS w0 hne0 hws0, List.mem_singleton] at hw
      rw [hw]
      exact hs w0 hw0
    · rw [if_neg hl]
      exact ⟨appendCur_words T st h, hs⟩

theorem foldl_procSentence_words (T : List Str) (maxChars : Nat)
    (ss : List Str) :
    ∀ st, (∀ s ∈ ss, ∀ w ∈ pyWords s, w ∈ T) → stWordsOK T st →
      stWordsOK T (ss.foldl (procSentence maxChars) st) := by
  induction ss with
  | nil => intro st _ h; exact h
  | cons s rest ih =>
      intro st hss h
      rw [List.foldl_cons]
      exact ih _ (fun x hx => hss x (List.mem_cons_of_mem _ hx))
        (procSentence_words T maxChars st s
          (hss s (List.mem_cons_self _ _)) h)

theorem procPara_words (T : List Str) (maxChars : Nat)
    (st : List Str × Str) (p : Str)
    (hp : ∀ w ∈ pyWords p, w ∈ T) (h : stWordsOK T st) :
    stWordsOK T (procPara maxChars st p) := by
  unfold procPara
  by_cases h0 : (pyStrip p).isEmpty = true
  · rw [if_pos h0]
    exact h
  · rw [if_neg h0]
    by_cases hc : st.2.length + (pyStrip p).length + 2 ≤ maxChars
    · rw [if_pos hc]
      refine ⟨h.1, ?_⟩
      intro w hw
      rw [pyWords_pyStrip, pyWords_append_ws _ _ '\n' (by decide),
        pyWords_cons_ws _ '\n' (by decide), pyWords_pyStrip] at hw
      rcases List.mem_append.mp hw with h1 | h1
      · exact h.2 w h1
      · exact hp w h1
    · rw [if_neg hc]
      by_cases hl : maxChars < (pyStrip p).length
      · rw [if_pos hl]
        refine foldl_procSentence_words T maxChars _ _ ?_
          ⟨appendCur_words T st h, by simp [pyWords, pyWordsFinish]⟩
        intro s hs w hw
        have h2 := splitSentences_words_sound (pyStrip p) s w hs hw
        rw [pyWords_pyStrip] at h2
        exact hp w h2
      · rw [if_neg hl]
        refine ⟨appendCur_words T st h, ?_⟩
        intro w hw
        rw [pyWords_pyStrip] at hw
        exact hp w hw

theorem foldl_procPara_words (T : List Str) (maxChars : Nat)
    (ps : List Str) :
    ∀ st, (∀ p ∈ ps, ∀ w ∈ pyWords p, w ∈ T) → stWordsOK T st →
      stWordsOK T (ps.foldl (procPara maxChars) st) := by
  induction ps with
  | nil => intro st _ h; exact h
  | cons p rest ih =>
      intro st hps h
      rw [List.foldl_cons]
      exact ih _ (fun x hx => hps x (List.mem_cons_of_mem _ hx))
        (procPara_words T maxChars st p (hps p (List.mem_cons_self _ _)) h)

-- ════════════════════════════════════════════════════════════════════════════
-- Claim theorems
-- ════════════════════════════════════════════════════════════════════════════

/-- C7: `maybe_summarize` does nothing below the threshold; at or above the
threshold with a successful LLM it stores one merged summary row whose
`last_summarized_message_id` is the maximum id of the exactly-threshold
oldest unsummarized messages, so the unsummarized count drops by
`threshold`; and on LLM failure the database is unchanged, so the same
window is retried later. -/
theorem C7_maybe_summarize_behaviour
    (llm : List ConvMsg → Option Str → Option Str) (threshold : Nat)
    (db : ConvDB) (u : Str) (text : Str)
    (hok : convOK db) (hth : 0 < threshold) :
    (get_unsummarized_message_count db u < threshold →
      maybe_summarize llm threshold db u = db)
    ∧ (threshold ≤ get_unsummarized_message_count db u →
        llm (get_messages_for_summarization db u threshold)
          ((get_latest_summary db u).map (fun s => s.summary_text)) = none →
        maybe_summarize llm threshold db u = db)
    ∧ (threshold ≤ get_unsummarized_message_count db u →
        llm (get_messages_for_summarization db u threshold)
          ((get_latest_summary db u).map (fun s => s.summary_text)) = some text →
        (get_messages_for_summarization db u threshold).length = threshold
        ∧ (maybe_summarize llm threshold db u).summaries.filter
            (fun s => decide (s.user_id = u)) =
            [{ user_id := u, summary_text := text,
               message_count :=
                 ((db.summaries.filter (fun s => decide (s.user_id = u))).map
                   (fun s => s.message_count)).sum + threshold,
               last_summarized_message_id :=
                 natFoldMax ((get_messages_for_summarization db u
                   threshold).map (fun m => m.id)) }]
        ∧ lastSummarizedId (maybe_summarize llm threshold db u) u =
            natFoldMax ((get_messages_for_summarization db u threshold).map
              (fun m => m.id))
        ∧ get_unsummarized_message_count (maybe_summarize llm threshold db u) u =
            get_unsummarized_message_count db u - threshold) := by
  refine ⟨?_, ?_, ?_⟩
  · intro hlt
    unfold maybe_summarize
    rw [if_pos hlt]
  · intro hge hllm
    unfold maybe_summarize
    have hne : (get_messages_for_summarization db u threshold).isEmpty = false := by
      have hmlen : (get_messages_for_summarization db u threshold).length =
          threshold := by
        show ((db.conversations.filter
          (msgAfter u (lastSummarizedId db u))).take threshold).length = _
        rw [List.length_take]
        exact Nat.min_eq_left hge
      rcases h : (get_messages_for_summarization db u threshold) with _ | _
      · rw [h] at hmlen; simp at hmlen; omega
      · rfl
    rw [if_neg (not_lt.mpr hge), if_neg (by simp [hne]), hllm]
  · intro hge hllm
    have hmlen : (get_messages_for_summarization db u threshold).length =
        threshold := by
      show ((db.conversations.filter
        (msgAfter u (lastSummarizedId db u))).take threshold).length = _
      rw [List.length_take]
      exact Nat.min_eq_left hge
    have hne : (get_messages_for_summarization db u threshold).isEmpty = false := by
      rcases h : (get_messages_for_summarization db u threshold) with _ | _
      · rw [h] at hmlen; simp at hmlen; omega
      · rfl
    have hdb' : maybe_summarize llm threshold db u =
        save_conversation_summary db u text
          (get_messages_for_summarization db u threshold).length
          (natFoldMax ((get_messages_for_summarization db u threshold).map
            (fun m => m.id))) := by
      unfold maybe_summarize
      rw [if_neg (not_lt.mpr hge), if_neg (by simp [hne]), hllm]
    -- The maximum id is the id of a summarized message: positive and above
    -- the previous high-water mark.
    have hidsne : (get_messages_for_summarization db u threshold).map
        (fun m => m.id) ≠ [] := by
      intro he
      have hlen := congrArg List.length he
      simp only [List.length_map, hmlen, List.length_nil] at hlen
      omega
    obtain ⟨a0, ha0, ha0id⟩ := List.mem_map.mp (natFoldMax_mem _ hidsne)
    have ha0L : a0 ∈ db.conversations.filter
        (msgAfter u (lastSummarizedId db u)) :=
      List.take_subset _ _ ha0
    have ha0conv : a0 ∈ db.conversations := List.mem_of_mem_filter ha0L
    have ha0after : msgAfter u (lastSummarizedId db u) a0 = true :=
      List.of_mem_filter ha0L
    have hlast_lt : lastSummarizedId db u <
        natFoldMax ((get_messages_for_summarization db u threshold).map
          (fun m => m.id)) := by
      simp only [msgAfter, Bool.and_eq_true, decide_eq_true_eq] at ha0after
      omega
    have hMpos : natFoldMax ((get_messages_for_summarization db u
        threshold).map (fun m => m.id)) ≠ 0 := by
      have := (hok.2 a0 ha0conv).1
      omega
    refine ⟨hmlen, ?_, ?_, ?_⟩
    · rw [hdb', save_summary_summaries,
        summaries_filter_after_save db.summaries u _ rfl, if_neg hMpos, hmlen]
    · rw [hdb', lastSummarizedId_save, if_neg hMpos]
    · rw [hdb']
      show ((save_conversation_summary db u text _ _).conversations.filter
        (msgAfter u (lastSummarizedId (save_conversation_summary db u text _ _)
          u))).length = _
      rw [save_summary_conversations, lastSummarizedId_save, if_neg hMpos]
      have hpt : ∀ m ∈ db.conversations,
          msgAfter u (natFoldMax ((get_messages_for_summarization db u
            threshold).map (fun m => m.id))) m =
          (decide ((natFoldMax ((get_messages_for_summarization db u
            threshold).map (fun m => m.id))) < m.id) &&
            msgAfter u (lastSummarizedId db u) m) := by
        intro m _
        by_cases h1 : m.user_id = u <;>
          by_cases h2 : natFoldMax ((get_messages_for_summarization db u
            threshold).map (fun m => m.id)) < m.id <;>
          simp [msgAfter, h1, h2] <;> omega
      rw [List.filter_congr hpt, ← List.filter_filter]
      have hdrop := filter_gt_max_take
        (db.conversations.filter (msgAfter u (lastSummarizedId db u)))
        threshold (hok.1.filter _) hge hth
      rw [show (get_messages_for_summarization db u threshold) =
        (db.conversations.filter
          (msgAfter u (lastSummarizedId db u))).take threshold from rfl]
      rw [hdrop, List.length_drop]
      rfl

/-- C7 witness: with threshold 2 and a successful LLM, summarizing the
concrete database drops the unsummarized count by the threshold. -/
theorem C7_maybe_summarize_behaviour_witness :
    get_unsummarized_message_count
      (maybe_summarize (fun _ _ => some (S ("סיכום"))) 2 dbC7 (S ("u1")))
      (S ("u1")) =
      get_unsummarized_message_count dbC7 (S ("u1")) - 2 :=
  ((C7_maybe_summarize_behaviour (fun _ _ => some (S ("סיכום"))) 2 dbC7
    (S ("u1")) (S ("סיכום"))
    (by constructor
        · decide
        · decide)
    (by decide)).2.2 (by decide) rfl).2.2.2

/-- A singleton list whose row is an active session of `v` survives the
active-session filter. -/
theorem filter_singleton_active (v : Str) (row : LCRow)
    (h1 : row.user_id = v) (h2 : row.is_active = true) :
    ([row] : List LCRow).filter
      (fun r => decide (r.user_id = v) && r.is_active) = [row] := by
  rw [List.filter_cons, if_pos (by simp [h1, h2])]
  rfl

/-- A singleton list whose row belongs to another user filters to nothing. -/
theorem filter_singleton_other (v : Str) (row : LCRow)
    (h1 : row.user_id ≠ v) :
    ([row] : List LCRow).filter
      (fun r => decide (r.user_id = v) && r.is_active) = [] := by
  rw [List.filter_cons, if_neg (by simp [h1])]
  rfl

/-- C8: every live-chat operation preserves "at most one active row per
user"; `start` on an already-active user returns `already_active` and
changes nothing; `start` on an inactive user deactivates prior rows before
inserting the new one (see the event order); `end` sends and (when the send
succeeded) persists the "bot is back" message before deactivating, leaves
the user inactive, and a second `end` returns `already_ended` with no state
change. -/
theorem C8_live_chat_at_most_one_active
    (db : LCDB) (u username : Str) (tgOk : Bool) (hinv : atMostOneActive db) :
    atMostOneActive (start_live_chat db u username)
    ∧ atMostOneActive (end_live_chat db u)
    ∧ atMostOneActive (LiveChatService_start db u username tgOk).2.1
    ∧ atMostOneActive (LiveChatService_end db u tgOk).2.1
    ∧ (is_live_chat_active db u = true →
        LiveChatService_start db u username tgOk =
          ((true, S ("already_active")), db, []))
    ∧ (is_live_chat_active db u = false →
        (LiveChatService_start db u username tgOk).2.2 =
          [LCEv.deactivatePrior u, LCEv.insertActive u,
           LCEv.tgSend u LIVE_CHAT_JOIN_MSG] ++
          (if tgOk then [LCEv.saveMsg u LIVE_CHAT_JOIN_MSG] else []))
    ∧ (is_live_chat_active db u = true →
        ((LiveChatService_end db u tgOk).2.2 =
          [LCEv.tgSend u LIVE_CHAT_END_MSG] ++
          (if tgOk then [LCEv.saveMsg u LIVE_CHAT_END_MSG] else []) ++
          [LCEv.deactivate u])
        ∧ is_live_chat_active (LiveChatService_end db u tgOk).2.1 u = false
        ∧ LiveChatService_end (LiveChatService_end db u tgOk).2.1 u tgOk =
            ((true, S ("already_ended")),
              (LiveChatService_end db u tgOk).2.1, [])) := by
  have hstart : atMostOneActive (start_live_chat db u username) := by
    intro v
    simp only [start_live_chat, List.filter_append]
    by_cases hv : v = u
    · subst hv
      rw [filter_deactivate_self, filter_singleton_active v _ rfl rfl]
      simp
    · rw [filter_deactivate_other _ _ _ hv,
        filter_singleton_other v _ (fun h => hv h.symm), List.append_nil]
      exact hinv v
  have hend : atMostOneActive (end_live_chat db u) := by
    intro v
    by_cases hv : v = u
    · subst hv
      show ((db.live_chats.map (deactivateRow v)).filter _).length ≤ 1
      rw [filter_deactivate_self]
      simp
    · show ((db.live_chats.map (deactivateRow u)).filter _).length ≤ 1
      rw [filter_deactivate_other _ _ _ hv]
      exact hinv v
  have hend_inactive : is_live_chat_active (end_live_chat db u) u = false :=
    any_eq_false_of_filter_nil _ _ (filter_deactivate_self db.live_chats u)
  refine ⟨hstart, hend, ?_, ?_, ?_, ?_, ?_⟩
  · by_cases hact : is_live_chat_active db u = true
    · unfold LiveChatService_start
      rw [if_pos hact]
      exact hinv
    · unfold LiveChatService_start
      rw [if_neg hact]
      exact hstart
  · by_cases hact : is_live_chat_active db u = true
    · unfold LiveChatService_end
      rw [if_neg (by simp [hact])]
      exact hend
    · unfold LiveChatService_end
      rw [if_pos (by simp [Bool.not_eq_true] at hact ⊢; exact hact)]
      exact hinv
  · intro h
    unfold LiveChatService_start
    rw [if_pos h]
  · intro h
    unfold LiveChatService_start
    rw [if_neg (by simp [h])]
  · intro h
    have hbranch : LiveChatService_end db u tgOk =
        ((tgOk, if tgOk then S ("ended") else S ("telegram_failed")),
         end_live_chat db u,
         [LCEv.tgSend u LIVE_CHAT_END_MSG] ++
         (if tgOk then [LCEv.saveMsg u LIVE_CHAT_END_MSG] else []) ++
         [LCEv.deactivate u]) := by
      unfold LiveChatService_end
      rw [if_neg (by simp [h])]
    refine ⟨by rw [hbranch], by rw [hbranch]; exact hend_inactive, ?_⟩
    rw [hbranch]
    show LiveChatService_end (end_live_chat db u) u tgOk = _
    unfold LiveChatService_end
    rw [if_pos (by rw [hend_inactive]; rfl)]

/-- C8 witness: ending the concrete active session leaves the user without
an active live-chat row. -/
theorem C8_live_chat_at_most_one_active_witness :
    is_live_chat_active ((LiveChatService_end dbLC (S ("u1")) true).2.1)
      (S ("u1")) = false :=
  ((C8_live_chat_at_most_one_active dbLC (S ("u1")) (S ("Dana")) true
    (fun _ => le_trans (List.length_filter_le _ _) (by decide))).2.2.2.2.2.2
    (by decide)).2.1

/-- C10: the stored high-water mark never decreases:
`save_conversation_summary` with the default argument `0` carries the
previous mark into the replacement row, and `maybe_summarize` only ever
installs the maximum id of messages strictly above the previous mark, so
its result's mark is at least the old one. -/
theorem C10_high_water_mark_never_decreases
    (db : ConvDB) (u text0 : Str) (c : Nat)
    (llm : List ConvMsg → Option Str → Option Str) (threshold : Nat) :
    lastSummarizedId (save_conversation_summary db u text0 c 0) u =
      lastSummarizedId db u
    ∧ lastSummarizedId db u ≤
        lastSummarizedId (maybe_summarize llm threshold db u) u := by
  constructor
  · rw [lastSummarizedId_save, if_pos rfl]
  · unfold maybe_summarize
    by_cases h1 : get_unsummarized_message_count db u < threshold
    · rw [if_pos h1]
    · rw [if_neg h1]
      by_cases h2 : (get_messages_for_summarization db u threshold).isEmpty = true
      · rw [if_pos h2]
      · rw [if_neg h2]
        rcases hllm : llm (get_messages_for_summarization db u threshold)
            ((get_latest_summary db u).map (fun s => s.summary_text)) with _ | t
        · rw [hllm]
        · rw [hllm]
          show lastSummarizedId db u ≤
            lastSummarizedId (save_conversation_summary db u t
              (get_messages_for_summarization db u threshold).length
              (natFoldMax ((get_messages_for_summarization db u threshold).map
                (fun m => m.id)))) u
          rw [lastSummarizedId_save]
          by_cases hM : natFoldMax ((get_messages_for_summarization db u
              threshold).map (fun m => m.id)) = 0
          · rw [if_pos hM]
          · rw [if_neg hM]
            have hidsne : (get_messages_for_summarization db u threshold).map
                (fun m => m.id) ≠ [] := by
              intro he
              rcases hmm : get_messages_for_summarization db u threshold with _ | _
              · rw [hmm] at h2; simp at h2
              · rw [hmm] at he; simp at he
            obtain ⟨a0, ha0, ha0id⟩ := List.mem_map.mp (natFoldMax_mem _ hidsne)
            have ha0L : a0 ∈ db.conversations.filter
                (msgAfter u (lastSummarizedId db u)) :=
              List.take_subset _ _ ha0
            have ha0after : msgAfter u (lastSummarizedId db u) a0 = true :=
              List.of_mem_filter ha0L
            simp only [msgAfter, Bool.and_eq_true, decide_eq_true_eq] at ha0after
            omega

/-- C1: the claim requires the intent classifier to be able to return a
`BUSINESS_HOURS` intent and the corresponding routing branch of
`message_handler` to be reachable without error.  In the code the `Intent`
enum has no `BUSINESS_HOURS` member, so (1) attribute lookup of
`BUSINESS_HOURS` on `Intent` fails, (2) the classifier maps the business-
hours question `"what are your hours"` (an input the repository's own test
suite asserts to be `BUSINESS_HOURS`) to `GENERAL`, (3) `message_handler`
raises `AttributeError` on that message when evaluating
`Intent.BUSINESS_HOURS` at line 716, and (4) no message can ever reach the
business-hours reply branch. -/
theorem C1_business_hours_branch_unreachable :
    Intent.pyAttr (S ("BUSINESS_HOURS")) = none
    ∧ detect_intent (S ("what are your hours")) = Intent.general
    ∧ message_handler_route false (S ("what are your hours")) =
        PyOutcome.attributeError
    ∧ ∀ (v : Bool) (m : Str),
        message_handler_route v m ≠ PyOutcome.ok BotAction.hoursReply := by
  refine ⟨by decide, by decide, by decide, ?_⟩
  intro v m
  have hattr : Intent.pyAttr (S ("BUSINESS_HOURS")) = none := by decide
  by_cases h : detect_intent m = Intent.greeting ∨ detect_intent m = Intent.farewell
  · simp [message_handler_route, h]
  · simp [message_handler_route, h, hattr]

/-- C3 (counterexample): the claim says the quality check accepts an answer
iff it contains a line matching `(source|מקור):\s*.+` case-insensitively.
The answer `"Open 9 to 5 daily.\nSOURCE: Business Hours"` matches that
pattern case-insensitively, yet `_quality_check` — whose actual pattern
`([Ss]ource|מקור):\s*.+` varies only the first letter — replaces it with the
fallback string. -/
theorem C3_uppercase_citation_rejected :
    reSearch citationPatternSpecCI
      (S ("Open 9 to 5 daily.\nSOURCE: Business Hours")) = true
    ∧ quality_check (S ("Open 9 to 5 daily.\nSOURCE: Business Hours")) =
        FALLBACK_RESPONSE
    ∧ S ("Open 9 to 5 daily.\nSOURCE: Business Hours") ≠ FALLBACK_RESPONSE :=
  ⟨by decide, by decide, by decide⟩

/-- C3 (amended): with the pattern `([Ss]ource|מקור):\s*.+` actually compiled
by the source (only the first letter of `source` varies in case) and a truthy
`user_id`: the quality check accepts the (follow-up-stripped) answer iff the
pattern matches it; on failure the returned answer is the fallback string,
the follow-up list is empty and an `unanswered_questions` row is appended;
and every returned answer either matches the citation pattern or equals the
fallback string. -/
theorem C3_quality_check_amended (fuE : Bool) (extractFU : Str → List Str)
    (stripFU : Str → Str) (raw : Str) (uid uname : Option Str) (q : Str)
    (table : List (Str × Str × Str)) (huid : pyTruthyStr uid = true) :
    (reSearch SOURCE_CITATION_RE (if fuE then stripFU raw else raw) = true →
      generate_answer_post fuE extractFU stripFU raw uid uname q table =
        ((if fuE then stripFU raw else raw),
          (if fuE then extractFU raw else []), table))
    ∧ (reSearch SOURCE_CITATION_RE (if fuE then stripFU raw else raw) = false →
      generate_answer_post fuE extractFU stripFU raw uid uname q table =
        (FALLBACK_RESPONSE, [], table ++ [(uid.getD [], uname.getD [], q)]))
    ∧ (reSearch SOURCE_CITATION_RE
        (generate_answer_post fuE extractFU stripFU raw uid uname q table).1 = true
      ∨ (generate_answer_post fuE extractFU stripFU raw uid uname q table).1 =
          FALLBACK_RESPONSE) := by
  have hFB : reSearch SOURCE_CITATION_RE FALLBACK_RESPONSE = false := by decide
  have hfst : (generate_answer_post fuE extractFU stripFU raw uid uname q table).1
      = quality_check (if fuE then stripFU raw else raw) := by
    simp only [generate_answer_post]
    split <;> split <;> rfl
  refine ⟨?_, ?_, ?_⟩
  · intro h
    have hq : quality_check (if fuE then stripFU raw else raw) =
        (if fuE then stripFU raw else raw) := by
      simp [quality_check, h]
    have hne : quality_check (if fuE then stripFU raw else raw) ≠
        FALLBACK_RESPONSE := by
      rw [hq]
      intro he
      rw [he, hFB] at h
      exact Bool.noConfusion h
    simp only [generate_answer_post]
    rw [if_neg (fun hc => hne hc.1), hq]
  · intro h
    have hq : quality_check (if fuE then stripFU raw else raw) =
        FALLBACK_RESPONSE := by
      simp [quality_check, h]
    simp only [generate_answer_post]
    rw [if_pos ⟨hq, huid⟩, hq]
  · rw [hfst]
    by_cases h : reSearch SOURCE_CITATION_RE (if fuE then stripFU raw else raw) = true
    · left
      have hq : quality_check (if fuE then stripFU raw else raw) =
          (if fuE then stripFU raw else raw) := by
        simp [quality_check, h]
      rw [hq]
      exact h
    · right
      simp [quality_check, h]

/-- C3 witness: a citation-free answer with a truthy user id goes to the
fallback string, empty follow-ups, and one persisted unanswered question. -/
theorem C3_quality_check_amended_witness :
    generate_answer_post false (fun _ => []) id (S ("no citation here"))
      (some (S ("u1"))) none (S ("q1")) [] =
      (FALLBACK_RESPONSE, [], [(S ("u1"), [], S ("q1"))]) :=
  (C3_quality_check_amended false (fun _ => []) id (S ("no citation here"))
    (some (S ("u1"))) none (S ("q1")) [] (by decide)).2.1 (by decide)

/-- C4 (counterexample): the claim includes the `/start` welcome message
among the messages persisted before the network reply.  In
`start_command` the welcome reply is sent first and the two conversation
rows are written only afterwards, so the trace violates the
persist-before-reply property. -/
theorem C4_start_welcome_sent_before_persist :
    persistedBeforeReply
      (start_command_trace (S ("Dana Beauty Salon")) false (S ("u1"))
        (S ("Dana"))) = false := by decide

/-- C4 (amended): in the RAG pipeline (`_handle_rag_query`) every
customer-visible reply — the normal answer and the handoff fallback reply —
is persisted in `conversations` before the network send (the answer is
stored raw and sent citation-stripped); the `/start` welcome message is the
exception: it is sent before its rows are written. -/
theorem C4_rag_pipeline_persists_before_reply
    (user_id display_name user_message answer handoff_reason : Str) :
    persistedBeforeReply
      (handle_rag_query_trace user_id display_name user_message answer
        handoff_reason) = true
    ∧ ∀ (business_name : Str) (referral_registered : Bool) (uid name : Str),
        persistedBeforeReply
          (start_command_trace business_name referral_registered uid name) =
          false := by
  constructor
  · unfold handle_rag_query_trace
    by_cases hb : should_handoff_to_human (strip_source_citation answer) = true
    · rw [if_pos hb]
      simp [persistedBeforeReply, replyOK, handoff_trace]
    · rw [if_neg hb]
      simp [persistedBeforeReply, replyOK]
  · intro business_name referral_registered uid name
    simp [persistedBeforeReply, replyOK, start_command_trace]

/-- C5: the claim states that pricing patterns are evaluated before
appointment-booking patterns, so a message matching both (the repository's
own test uses `"כמה עולה לקבוע תור?"`) classifies as `PRICING`.  In the code
`_INTENT_PATTERNS` lists `APPOINTMENT_BOOKING` before `PRICING`, so that
message — which matches both the pricing and the booking pattern — is
classified `APPOINTMENT_BOOKING`; more generally no message matching the
booking pattern can ever classify as `PRICING`. -/
theorem C5_booking_evaluated_before_pricing :
    reSearch pricingRE (lowerStr (pyStrip (S ("כמה עולה לקבוע תור?")))) = true
    ∧ reSearch bookingRE (lowerStr (pyStrip (S ("כמה עולה לקבוע תור?")))) = true
    ∧ detect_intent (S ("כמה עולה לקבוע תור?")) = Intent.appointment_booking
    ∧ ∀ m : Str, reSearch bookingRE (lowerStr (pyStrip m)) = true →
        detect_intent m ≠ Intent.pricing := by
  refine ⟨by decide, by decide, by decide, ?_⟩
  intro m hm
  by_cases h0 : pyStrip m = []
  · simp [detect_intent, h0]
  · simp only [detect_intent, if_neg h0, INTENT_PATTERNS, firstIntent]
    by_cases h1 : reSearch greetingRE (lowerStr (pyStrip m)) = true
    · rw [if_pos h1]; decide
    · rw [if_neg h1]
      by_cases h2 : reSearch farewellRE (lowerStr (pyStrip m)) = true
      · rw [if_pos h2]; decide
      · rw [if_neg h2, if_pos hm]; decide

/-- C2: the referral send-code flow is atomic.  For a user with no sent row
(and non-empty stored codes), after `generate_referral_code` the first
`mark_referral_code_as_sent` returns `true` and an immediate second one
returns `false` (exactly one of two consecutive marks succeeds); when the
transport send succeeds, `try_send_referral_code` returns `true` with trace
generate → mark → send (the send happens only after the successful mark);
when the send fails or raises, it returns `false`, the trace ends with
`unmarkSent`, every row of the user is unsent again, and a fresh mark
succeeds — a future attempt can retry. -/
theorem C2_referral_send_flow
    (hash : Nat → Str) (botUsername : Str) (db : RDB) (u : Str)
    (send_fn : Str → Except Unit Bool)
    (hunsent : ∀ r ∈ db.referrals, r.referrer_id = u → r.sent = false)
    (hcodes : ∀ r ∈ db.referrals, r.code ≠ []) :
    (mark_referral_code_as_sent (generate_referral_code hash db u).2 u).1 = true
    ∧ (mark_referral_code_as_sent
        (mark_referral_code_as_sent
          (generate_referral_code hash db u).2 u).2 u).1 = false
    ∧ (sendResultBool (send_fn (get_referral_message_text botUsername
          (generate_referral_code hash db u).1)) = true →
        try_send_referral_code hash botUsername db u send_fn =
          (true,
           (mark_referral_code_as_sent (generate_referral_code hash db u).2 u).2,
           [RefEv.generate (generate_referral_code hash db u).1,
            RefEv.markSent true,
            RefEv.send (get_referral_message_text botUsername
              (generate_referral_code hash db u).1)]))
    ∧ (sendResultBool (send_fn (get_referral_message_text botUsername
          (generate_referral_code hash db u).1)) = false →
        try_send_referral_code hash botUsername db u send_fn =
          (false,
           unmark_referral_code_sent
             (mark_referral_code_as_sent
               (generate_referral_code hash db u).2 u).2 u,
           [RefEv.generate (generate_referral_code hash db u).1,
            RefEv.markSent true,
            RefEv.send (get_referral_message_text botUsername
              (generate_referral_code hash db u).1),
            RefEv.unmarkSent])
        ∧ (∀ r ∈ (unmark_referral_code_sent
              (mark_referral_code_as_sent
                (generate_referral_code hash db u).2 u).2 u).referrals,
            r.referrer_id = u → r.sent = false)
        ∧ (mark_referral_code_as_sent
            (unmark_referral_code_sent
              (mark_referral_code_as_sent
                (generate_referral_code hash db u).2 u).2 u) u).1 = true) := by
  have hany := gen_has_unsent_row hash db u hunsent
  have hmk := mark_of_any_true (generate_referral_code hash db u).2 u hany
  have hmark1 : (mark_referral_code_as_sent
      (generate_referral_code hash db u).2 u).1 = true := by rw [hmk]
  have hstate : (mark_referral_code_as_sent
      (generate_referral_code hash db u).2 u).2.referrals =
      (generate_referral_code hash db u).2.referrals.map (setSent true u) := by
    rw [hmk]
  have hne := gen_code_ne_nil hash db u hcodes
  have hemp : (generate_referral_code hash db u).1.isEmpty = false := by
    cases hG : (generate_referral_code hash db u).1 with
    | nil => exact absurd hG hne
    | cons c cs => rfl
  refine ⟨hmark1, ?_, ?_, ?_⟩
  · have hf : ((mark_referral_code_as_sent
        (generate_referral_code hash db u).2 u).2).referrals.any
        (fun r => decide (r.referrer_id = u) && !r.sent) = false := by
      rw [hstate]; exact no_unsent_after_mark _ u
    rw [mark_of_any_false _ u hf]
  · intro hsend
    unfold try_send_referral_code
    rw [if_neg (by simp [hemp]), if_neg (by simp [hmark1]), if_pos hsend]
  · intro hsend
    refine ⟨?_, ?_, ?_⟩
    · unfold try_send_referral_code
      rw [if_neg (by simp [hemp]), if_neg (by simp [hmark1]),
        if_neg (by simp [hsend])]
    · intro r hr hru
      exact all_unsent_after_unmark _ u r hr hru
    · apply mark_succeeds_of_row_unsent
      · have h1 := gen_has_row hash db u
        have h2 : (mark_referral_code_as_sent
            (generate_referral_code hash db u).2 u).2.referrals.any
            (fun r => decide (r.referrer_id = u)) = true := by
          rw [hstate]; exact any_referrer_map_setSent _ true u h1
        exact any_referrer_map_setSent _ false u h2
      · intro r hr hru
        exact all_unsent_after_unmark _ u r hr hru

/-- Witness for C2 at a concrete input: empty referral table, a concrete
hash stream, and a transport that succeeds — the flow reports the code as
sent. -/
theorem C2_referral_send_flow_witness :
    (try_send_referral_code (fun _ => S ("AB12CD34")) (S ("mybot"))
      { referrals := [] } (S ("u1")) (fun _ => Except.ok true)).1 = true := by
  rw [(C2_referral_send_flow (fun _ => S ("AB12CD34")) (S ("mybot"))
      { referrals := [] } (S ("u1")) (fun _ => Except.ok true)
      (by simp) (by simp)).2.2.1 rfl]

/-- C6 counterexample to the dimension clause: entry 1's stored chunk holds
a dimension-2 embedding while the batch produces dimension-3 vectors, yet —
because `rebuild_index` performs no dimension check — entry 1 stays
unchanged (nothing is ever reclassified), its stored embedding is reused
into its slot, and only the new entry 2's text is sent for embedding. -/
theorem C6_no_dimension_check :
    initUnchanged
        [⟨1, 0, S ("alpha")⟩, ⟨2, 0, S ("beta")⟩]
        [⟨1, 0, S ("alpha"), some [1, 2]⟩] 1 = true
    ∧ (step4Run [⟨1, 0, S ("alpha"), some [1, 2]⟩]
        [⟨1, 0, S ("alpha")⟩, ⟨2, 0, S ("beta")⟩]).changed = []
    ∧ finalChangedB [⟨1, 0, S ("alpha"), some [1, 2]⟩]
        [⟨1, 0, S ("alpha")⟩, ⟨2, 0, S ("beta")⟩] 1 = false
    ∧ (step4Run [⟨1, 0, S ("alpha"), some [1, 2]⟩]
        [⟨1, 0, S ("alpha")⟩, ⟨2, 0, S ("beta")⟩]).embAcc
        = [some [1, 2], none]
    ∧ (step4Run [⟨1, 0, S ("alpha"), some [1, 2]⟩]
        [⟨1, 0, S ("alpha")⟩, ⟨2, 0, S ("beta")⟩]).embTexts
        = [S ("beta")] := by
  decide

/-- C6 (amended): in an incremental rebuild, (i) an entry ends up changed
iff its chunk texts differ from the stored ones or some chunk of it lacks a
truthy position-matched stored embedding (so a missing stored embedding
reclassifies the entry — but nothing checks dimensions); (ii) every text
sent to the single batched embedding call belongs to a finally-changed
entry; (iii) when every chunk has a truthy position-matched stored
embedding under unchanged texts, nothing is embedded and the matrix is
exactly the stored embeddings, position-matched by `chunk_index`. -/
theorem C6_incremental_rebuild_amended (embed : List Str → List (List Int))
    (stored : List StoredChunk) (chunks : List NewChunk) :
    (∀ e, finalChangedB stored chunks e =
        (!initUnchanged chunks stored e ||
         chunks.any (fun c => decide (c.entry_id = e) && !reuseOK stored c)))
    ∧ (∀ t ∈ (rebuild_index embed stored chunks).embeddedTexts,
        ∃ c, c ∈ chunks ∧ t = c.text ∧
          finalChangedB stored chunks c.entry_id = true)
    ∧ ((∀ c ∈ chunks, initUnchanged chunks stored c.entry_id = true ∧
          reuseOK stored c = true) →
        (rebuild_index embed stored chunks).embeddedTexts = []
        ∧ (rebuild_index embed stored chunks).embeddings =
            chunks.map (fun c => (matchedEmb stored c).getD [])) := by
  refine ⟨?_, ?_, ?_⟩
  · intro e
    unfold finalChangedB step4Run
    rw [step4_changed_elem]
    cases hi : initUnchanged chunks stored e <;> simp [elemB, hi]
  · intro t ht
    rcases step4_embTexts_mem (initUnchanged chunks stored) stored chunks
        ⟨[], [], []⟩ t ht with hin | ⟨c, hc, htx, hch⟩
    · exact absurd hin (List.not_mem_nil t)
    · exact ⟨c, hc, htx, hch⟩
  · intro h
    have hrun := step4_all_reuse (initUnchanged chunks stored) stored chunks
      ⟨[], [], []⟩ (fun c hc => ⟨(h c hc).1, (h c hc).2, rfl⟩)
    have htx : (step4Run stored chunks).embTexts = [] := by
      unfold step4Run
      rw [hrun]
    have hac : (step4Run stored chunks).embAcc =
        chunks.map (matchedEmb stored) := by
      unfold step4Run
      rw [hrun]
      simp
    refine ⟨htx, ?_⟩
    show fillAux (step4Run stored chunks).embAcc
      (embed (step4Run stored chunks).embTexts) = _
    rw [hac, fillAux_all_some]
    · rw [List.map_map]
      rfl
    · intro o ho
      obtain ⟨c, hc, ho2⟩ := List.mem_map.mp ho
      rw [← ho2]
      have hr := (h c hc).2
      unfold reuseOK at hr
      unfold matchedEmb
      cases hm : matchingStored stored c with
      | nil =>
          rw [hm] at hr
          simp at hr
      | cons m tl =>
          rw [hm] at hr
          intro hno
          have hr2 : embTruthy m.embedding = true := hr
          have hno2 : m.embedding = none := hno
          rw [hno2] at hr2
          simp [embTruthy] at hr2

/-- Witness for C6 (amended) at a concrete input: one entry, unchanged
text, stored embedding present — nothing is embedded and the matrix is
the stored vector. -/
theorem C6_incremental_rebuild_amended_witness :
    (rebuild_index (fun ts => ts.map (fun _ => [0]))
        [⟨1, 0, S ("a"), some [5]⟩] [⟨1, 0, S ("a")⟩]).embeddedTexts = []
    ∧ (rebuild_index (fun ts => ts.map (fun _ => [0]))
        [⟨1, 0, S ("a"), some [5]⟩] [⟨1, 0, S ("a")⟩]).embeddings
        = [[5]] := by
  have h := (C6_incremental_rebuild_amended (fun ts => ts.map (fun _ => [0]))
      [⟨1, 0, S ("a"), some [5]⟩] [⟨1, 0, S ("a")⟩]).2.2 (by decide)
  refine ⟨h.1, ?_⟩
  rw [h.2]
  decide

/-- C9: whenever `chunk_text` returns more than one chunk, every returned
chunk is non-empty (the final list comprehension strips each chunk and
drops the empty ones), fits in `4 * max_tokens` characters or contains no
whitespace (a single oversized word emitted as its own chunk), and no
chunk is produced by truncating in the middle of a word: every
whitespace-separated word of every chunk is a word of the input text. -/
theorem C9_chunk_text_properties (text : Str) (max_tokens : Nat)
    (hmulti : 1 < (chunk_text text max_tokens).length) :
    ∀ c ∈ chunk_text text max_tokens,
      c ≠ [] ∧
      (c.length ≤ 4 * max_tokens ∨ noWS c = true) ∧
      ∀ w ∈ pyWords c, w ∈ pyWords text := by
  by_cases hshort : text.length / 4 ≤ max_tokens
  · exfalso
    unfold chunk_text at hmulti
    rw [if_pos hshort] at hmulti
    by_cases he : (pyStrip text).isEmpty = true
    · rw [if_pos he] at hmulti
      simp at hmulti
    · rw [if_neg he] at hmulti
      simp at hmulti
  · intro c hc
    unfold chunk_text at hc
    rw [if_neg hshort] at hc
    obtain ⟨c0, hc0, hceq⟩ := List.mem_map.mp hc
    have hc0f := (List.mem_filter.mp hc0).1
    have hc0p : (!(pyStrip c0).isEmpty) = true := (List.mem_filter.mp hc0).2
    have hok : stOK (max_tokens * 4)
        ((splitParas text).foldl (procPara (max_tokens * 4)) ([], [])) :=
      foldl_procPara_ok (max_tokens * 4) (splitParas text) ([], [])
        ⟨by simp, Or.inl (by simp)⟩
    have hallOK := appendCur_ok (max_tokens * 4) _ hok
    have hW : stWordsOK (pyWords text)
        ((splitParas text).foldl (procPara (max_tokens * 4)) ([], [])) :=
      foldl_procPara_words (pyWords text) (max_tokens * 4) (splitParas text)
        ([], []) (fun p hp w hw => splitParas_words_sound text p w hp hw)
        ⟨by simp, by simp [pyWords, pyWordsFinish]⟩
    have hallW := appendCur_words (pyWords text) _ hW
    refine ⟨?_, ?_, ?_⟩
    · intro hnil
      rw [← hceq] at hnil
      rw [hnil] at hc0p
      simp at hc0p
    · rcases hallOK c0 hc0f with h1 | h1
      · left
        rw [← hceq]
        have h2 := pyStrip_length_le c0
        omega
      · right
        rw [← hceq]
        exact noWS_pyStrip c0 h1
    · intro w hw
      rw [← hceq, pyWords_pyStrip] at hw
      exact hallW c0 hc0f w hw

/-- Witness for C9 at a concrete input: `"aaaa bbbb cccc"` with
`max_tokens = 1` splits into three word-chunks. -/
theorem C9_chunk_text_properties_witness :
    1 < (chunk_text (S ("aaaa bbbb cccc")) 1).length ∧
    (S ("aaaa") ≠ [] ∧
      ((S ("aaaa")).length ≤ 4 * 1 ∨ noWS (S ("aaaa")) = true) ∧
      ∀ w ∈ pyWords (S ("aaaa")), w ∈ pyWords (S ("aaaa bbbb cccc"))) :=
  ⟨by decide, C9_chunk_text_properties (S ("aaaa bbbb cccc")) 1 (by decide)
    (S ("aaaa")) (by decide)⟩

end AIBot
